import Mathlib

/-!
Verification of the beaconchain dashboard-data aggregation modules
(`dashboard_data_w_2_epoch_hour.go`, `dashboard_data_w_3_hour_day.go`).

Shallow embedding conventions:
* Go `uint64` values are modelled as `Nat`.  Wraparound is modelled
  explicitly (`add64`, `sub64`) at the places where the source performs
  subtractions that can underflow (the far-behind check of `aggregate1h`
  and the `uint64 -> int64` casts); everywhere else the source only adds
  or divides small quantities and the natural-number model coincides
  with the machine behaviour for all realistic inputs.
* Values read from collaborator packages that are not part of the two
  source files (`utils.EpochsPerDay()`, `utils.GetEpochOffsetGenesis()`,
  `PartitionEpochWidth`, the epoch writer's retention duration, the gap
  query) are passed as explicit parameters.
* Database effects are modelled as explicit traces of events, split by
  whether they run inside the `sqlx` transaction opened by the function
  or directly on the `AlloyWriter` connection.
-/

namespace BeaconAgg

/-- `2 ^ 64`, the modulus of Go `uint64` arithmetic. -/
def u64Mod : Nat := 2 ^ 64

/-- Go `uint64` addition (wraps modulo `2 ^ 64`). -/
def add64 (a b : Nat) : Nat := (a + b) % u64Mod

/-- Go `uint64` subtraction (wraps modulo `2 ^ 64`). -/
def sub64 (a b : Nat) : Nat := (a % u64Mod + (u64Mod - b % u64Mod)) % u64Mod

/-- Go conversion `int64(x)` of a `uint64` value `x`: reinterprets the
low 64 bits as a two's-complement signed integer. -/
def toInt64 (n : Nat) : Int :=
  if n % u64Mod < 2 ^ 63 then (n % u64Mod : Int) else (n % u64Mod : Int) - (u64Mod : Int)

/-! ### Bounds calculators

`getHourAggregateWidth`/`getHourAggregateBounds` are the transliterations of
the functions of the same names in `dashboard_data_w_2_epoch_hour.go`;
`GetDayAggregateWidth`/`getDayAggregateBounds` come from
`dashboard_data_w_3_hour_day.go`.  `epochsPerDay` stands for
`utils.EpochsPerDay()` and `offset` for `utils.GetEpochOffsetGenesis()`,
both defined outside the two source files. -/

/-- `getHourAggregateWidth` : `utils.EpochsPerDay() / 24`. -/
def getHourAggregateWidth (epochsPerDay : Nat) : Nat := epochsPerDay / 24

/-- `getHourAggregateBounds(epoch)` from `dashboard_data_w_2_epoch_hour.go`. -/
def getHourAggregateBounds (epochsPerDay offset epoch : Nat) : Nat × Nat :=
  let e := epoch + offset
  let startOfPartition := e / getHourAggregateWidth epochsPerDay * getHourAggregateWidth epochsPerDay
  let endOfPartition := startOfPartition + getHourAggregateWidth epochsPerDay
  let startOfPartition := if startOfPartition < offset then offset else startOfPartition
  (startOfPartition - offset, endOfPartition - offset)

/-- `GetDayAggregateWidth` : `utils.EpochsPerDay()`. -/
def GetDayAggregateWidth (epochsPerDay : Nat) : Nat := epochsPerDay

/-- `getDayAggregateBounds(epoch)` from `dashboard_data_w_3_hour_day.go`. -/
def getDayAggregateBounds (epochsPerDay offset epoch : Nat) : Nat × Nat :=
  let e := epoch + offset
  let startOfPartition := e / GetDayAggregateWidth epochsPerDay * GetDayAggregateWidth epochsPerDay
  let endOfPartition := startOfPartition + GetDayAggregateWidth epochsPerDay
  let startOfPartition := if startOfPartition < offset then offset else startOfPartition
  (startOfPartition - offset, endOfPartition - offset)

/-- `PartitionDayWidth = 6` (constant in `dashboard_data_w_3_hour_day.go`). -/
def PartitionDayWidth : Nat := 6

/-- `GetHourPartitionRange(epoch)` from `dashboard_data_w_2_epoch_hour.go`.
`partitionEpochWidth` stands for the constant `PartitionEpochWidth`
defined outside the two source files. -/
def GetHourPartitionRange (epochsPerDay partitionEpochWidth epoch : Nat) : Nat × Nat :=
  let startOfPartition := epoch / (partitionEpochWidth * getHourAggregateWidth epochsPerDay) * partitionEpochWidth * getHourAggregateWidth epochsPerDay
  let endOfPartition := startOfPartition + partitionEpochWidth * getHourAggregateWidth epochsPerDay
  (startOfPartition, endOfPartition)

/-- The epoch-level range underlying `GetDayPartitionRange(epoch)` from
`dashboard_data_w_3_hour_day.go` (the source converts both endpoints
to wall-clock times via `utils.EpochToTime`, a strictly monotone map
defined outside the source files; the range itself is computed in
epochs exactly as below). -/
def GetDayPartitionRange (epochsPerDay epoch : Nat) : Nat × Nat :=
  let startOfPartition := epoch / (PartitionDayWidth * GetDayAggregateWidth epochsPerDay) * PartitionDayWidth * GetDayAggregateWidth epochsPerDay
  let endOfPartition := startOfPartition + PartitionDayWidth * GetDayAggregateWidth epochsPerDay
  (startOfPartition, endOfPartition)

/-- Generic core shared by the two bounds calculators: both source
functions compute exactly this for their respective width. -/
def bucketBoundsCore (w offset epoch : Nat) : Nat × Nat :=
  let e := epoch + offset
  let startOfPartition := e / w * w
  let endOfPartition := startOfPartition + w
  let startOfPartition := if startOfPartition < offset then offset else startOfPartition
  (startOfPartition - offset, endOfPartition - offset)

theorem getHourAggregateBounds_eq_core (epd g e : Nat) :
    getHourAggregateBounds epd g e = bucketBoundsCore (getHourAggregateWidth epd) g e := rfl

theorem getDayAggregateBounds_eq_core (epd g e : Nat) :
    getDayAggregateBounds epd g e = bucketBoundsCore (GetDayAggregateWidth epd) g e := rfl

theorem bucketBoundsCore_fst (w g e : Nat) :
    (bucketBoundsCore w g e).1 = (if (e + g) / w * w < g then g else (e + g) / w * w) - g := rfl

theorem bucketBoundsCore_snd (w g e : Nat) :
    (bucketBoundsCore w g e).2 = (e + g) / w * w + w - g := rfl

/-- Division facts packaged for the bounds proofs:
`w * ((e+g)/w) <= e + g < w * ((e+g)/w) + w`. -/
theorem div_mul_le_and_lt (w u : Nat) (hw : 0 < w) :
    u / w * w ≤ u ∧ u < u / w * w + w := by
  have hdm := Nat.div_add_mod u w
  have hm : u % w < w := Nat.mod_lt u hw
  have hc : u / w * w = w * (u / w) := Nat.mul_comm _ _
  omega

/-- Core tiling property of the bounds calculators, proved once for any
positive width: start and end satisfy `start + g = max (w * floor) g`,
`end + g = w * floor + w`, the bucket contains its epoch, the width is
`w` in the unclamped case and the clamped case can only be the first
bucket (`start = 0`). -/
theorem bucketBoundsCore_spec (w g e : Nat) (hw : 0 < w) :
    ((bucketBoundsCore w g e).1 ≤ e ∧ e < (bucketBoundsCore w g e).2) ∧
    ((g ≤ (e + g) / w * w →
        (bucketBoundsCore w g e).1 = (e + g) / w * w - g ∧
        (bucketBoundsCore w g e).2 - (bucketBoundsCore w g e).1 = w) ∧
      ((e + g) / w * w < g →
        (bucketBoundsCore w g e).1 = 0 ∧
        (bucketBoundsCore w g e).2 - (bucketBoundsCore w g e).1 ≤ w)) := by
  obtain ⟨hle, hlt⟩ := div_mul_le_and_lt w (e + g) hw
  rw [bucketBoundsCore_fst, bucketBoundsCore_snd]
  rcases Nat.lt_or_ge ((e + g) / w * w) g with hcl | hcl
  · rw [if_pos hcl]
    refine ⟨⟨by omega, by omega⟩, ⟨fun hge => absurd hcl (by omega), fun _ => ⟨by omega, by omega⟩⟩⟩
  · rw [if_neg (by omega)]
    refine ⟨⟨by omega, by omega⟩, ⟨fun _ => ⟨rfl, by omega⟩, fun hlt2 => absurd hcl (by omega)⟩⟩

/-- Richer bounds specification: start and end expressed through the
floor formula (with the clamp as a `max`), bucket membership, exact
width in the unclamped case, and the clamped case pinned to the first
bucket. -/
theorem bucketBoundsCore_full (w g e : Nat) (hw : 0 < w) :
    (bucketBoundsCore w g e).1 + g = max ((e + g) / w * w) g ∧
    (bucketBoundsCore w g e).2 + g = (e + g) / w * w + w ∧
    (bucketBoundsCore w g e).1 ≤ e ∧ e < (bucketBoundsCore w g e).2 ∧
    (g ≤ (e + g) / w * w →
      (bucketBoundsCore w g e).2 - (bucketBoundsCore w g e).1 = w) ∧
    ((e + g) / w * w < g →
      (bucketBoundsCore w g e).1 = 0 ∧
      (bucketBoundsCore w g e).2 - (bucketBoundsCore w g e).1 ≤ w) := by
  obtain ⟨hle, hlt⟩ := div_mul_le_and_lt w (e + g) hw
  have hg : g ≤ (e + g) / w * w + w := le_trans (Nat.le_add_left g e) (le_of_lt hlt)
  rw [bucketBoundsCore_fst, bucketBoundsCore_snd]
  rcases Nat.lt_or_ge ((e + g) / w * w) g with hcl | hcl
  · rw [if_pos hcl, Nat.max_eq_right (le_of_lt hcl)]
    exact ⟨by omega, by omega, by omega, by omega, fun h => by omega, fun _ => ⟨by omega, by omega⟩⟩
  · rw [if_neg (by omega), Nat.max_eq_left hcl]
    exact ⟨by omega, by omega, by omega, by omega, fun _ => by omega, fun h => by omega⟩

/-- The property claimed for the bounds calculators, at width `w` and
genesis offset `g`: the half-open bucket of `e` starts at the clamped
floor, ends one width later, contains `e`, and has width exactly `w`
except for the first bucket clamped at genesis. -/
def BoundsSpecAt (w g e : Nat) : Prop :=
  (bucketBoundsCore w g e).1 + g = max ((e + g) / w * w) g ∧
  (bucketBoundsCore w g e).2 + g = (e + g) / w * w + w ∧
  (bucketBoundsCore w g e).1 ≤ e ∧ e < (bucketBoundsCore w g e).2 ∧
  (g ≤ (e + g) / w * w →
    (bucketBoundsCore w g e).2 - (bucketBoundsCore w g e).1 = w) ∧
  ((e + g) / w * w < g →
    (bucketBoundsCore w g e).1 = 0 ∧
    (bucketBoundsCore w g e).2 - (bucketBoundsCore w g e).1 ≤ w)

instance (w g e : Nat) : Decidable (BoundsSpecAt w g e) := by
  unfold BoundsSpecAt; infer_instance

/-! ### Partition-range helpers (for claim C8) -/

/-- Both partition-range functions compute `(e / pw * pw, e / pw * pw + pw)`
for their respective partition width `pw`. -/
def partitionRangeCore (pw e : Nat) : Nat × Nat := (e / pw * pw, e / pw * pw + pw)

theorem GetHourPartitionRange_eq_core (epd P e : Nat) :
    GetHourPartitionRange epd P e =
      partitionRangeCore (P * getHourAggregateWidth epd) e := by
  unfold GetHourPartitionRange partitionRangeCore
  simp [Nat.mul_assoc]

theorem GetDayPartitionRange_eq_core (epd e : Nat) :
    GetDayPartitionRange epd e =
      partitionRangeCore (PartitionDayWidth * GetDayAggregateWidth epd) e := by
  unfold GetDayPartitionRange partitionRangeCore
  simp [Nat.mul_assoc]

/-- A multiple of `w` that is at most `e` is at most `e / w * w`. -/
theorem le_div_mul_of_dvd_le {w m e : Nat} (hw : 0 < w) (hdvd : w ∣ m) (hle : m ≤ e) :
    m ≤ e / w * w := by
  obtain ⟨j, rfl⟩ := hdvd
  have hj : j ≤ e / w := (Nat.le_div_iff_mul_le hw).2 (by rw [Nat.mul_comm]; omega)
  calc w * j = j * w := Nat.mul_comm w j
  _ ≤ e / w * w := Nat.mul_le_mul_right w hj

/-- Strict inequality between multiples of `w` leaves room for a full `w`. -/
theorem add_le_of_dvd_lt {w a b : Nat} (ha : w ∣ a) (hb : w ∣ b) (h : a < b) :
    a + w ≤ b := by
  obtain ⟨i, rfl⟩ := ha
  obtain ⟨j, rfl⟩ := hb
  have hij : i < j := lt_of_mul_lt_mul_left h (Nat.zero_le w)
  calc w * i + w = w * (i + 1) := by ring
  _ ≤ w * j := Nat.mul_le_mul_left w hij

/-- Partition core facts: membership, exact width, alignment, and
equal-or-disjoint tiling. -/
theorem partitionRangeCore_spec (pw e : Nat) (hpw : 0 < pw) :
    (partitionRangeCore pw e).1 ≤ e ∧ e < (partitionRangeCore pw e).2 ∧
    (partitionRangeCore pw e).2 = (partitionRangeCore pw e).1 + pw ∧
    pw ∣ (partitionRangeCore pw e).1 ∧
    (∀ e2, partitionRangeCore pw e = partitionRangeCore pw e2 ∨
      (partitionRangeCore pw e).2 ≤ (partitionRangeCore pw e2).1 ∨
      (partitionRangeCore pw e2).2 ≤ (partitionRangeCore pw e).1) := by
  obtain ⟨hle, hlt⟩ := div_mul_le_and_lt pw e hpw
  refine ⟨hle, hlt, rfl, Dvd.intro_left _ rfl, fun e2 => ?_⟩
  rcases Nat.lt_trichotomy (e / pw) (e2 / pw) with hq | hq | hq
  · right; left
    show e / pw * pw + pw ≤ e2 / pw * pw
    calc e / pw * pw + pw = (e / pw + 1) * pw := by ring
    _ ≤ e2 / pw * pw := Nat.mul_le_mul_right pw hq
  · left; unfold partitionRangeCore; rw [hq]
  · right; right
    show e2 / pw * pw + pw ≤ e / pw * pw
    calc e2 / pw * pw + pw = (e2 / pw + 1) * pw := by ring
    _ ≤ e / pw * pw := Nat.mul_le_mul_right pw hq

/-- When the genesis offset is a multiple of the bucket width the clamp
never fires and the bucket of `e` is simply `[e/w*w, e/w*w + w)`. -/
theorem bucketBoundsCore_of_dvd (w g e : Nat) (hw : 0 < w) (hdvd : w ∣ g) :
    bucketBoundsCore w g e = (e / w * w, e / w * w + w) := by
  obtain ⟨k, rfl⟩ := hdvd
  have hdiv : (e + w * k) / w = e / w + k := Nat.add_mul_div_left e k hw
  have hfloor : (e + w * k) / w * w = e / w * w + w * k := by
    rw [hdiv]; ring
  have hnoclamp : ¬ ((e + w * k) / w * w < w * k) := by
    rw [hfloor]; omega
  rw [bucketBoundsCore.eq_def]
  simp only [if_neg hnoclamp, hfloor]
  rw [if_neg (show ¬ (e / w * w + w * k < w * k) from by omega)]
  simp only [Prod.mk.injEq]
  omega

/-- Containment of the width-`w` bucket of `e` in the width-`pw`
partition of `e`, valid whenever `w ∣ g` and `w ∣ pw`. -/
theorem bucket_subset_partition (w g pw e : Nat) (hw : 0 < w) (hpw : 0 < pw)
    (hdvdg : w ∣ g) (hdvdp : w ∣ pw) :
    (partitionRangeCore pw e).1 ≤ (bucketBoundsCore w g e).1 ∧
    (bucketBoundsCore w g e).2 ≤ (partitionRangeCore pw e).2 := by
  rw [bucketBoundsCore_of_dvd w g e hw hdvdg]
  obtain ⟨hple, hplt⟩ := div_mul_le_and_lt pw e hpw
  obtain ⟨hble, hblt⟩ := div_mul_le_and_lt w e hw
  have hdvd_ps : w ∣ e / pw * pw := Dvd.dvd.mul_left hdvdp _
  have hdvd_pe : w ∣ e / pw * pw + pw := Nat.dvd_add hdvd_ps hdvdp
  have hdvd_bs : w ∣ e / w * w := Dvd.intro_left _ rfl
  constructor
  · exact le_div_mul_of_dvd_le hw hdvd_ps hple
  · show e / w * w + w ≤ (partitionRangeCore pw e).1 + pw
    exact add_le_of_dvd_lt hdvd_bs hdvd_pe (by show e / w * w < e / pw * pw + pw; omega)

/-- Claim C5 packaged: both bounds functions agree with the floor-formula
core, and that core satisfies clamped-floor start, bucket membership,
and exact width away from the genesis clamp. -/
def C5Statement (epd g e : Nat) : Prop :=
  getHourAggregateBounds epd g e = bucketBoundsCore (getHourAggregateWidth epd) g e ∧
  getDayAggregateBounds epd g e = bucketBoundsCore (GetDayAggregateWidth epd) g e ∧
  BoundsSpecAt (getHourAggregateWidth epd) g e ∧
  BoundsSpecAt (GetDayAggregateWidth epd) g e

/-- C5: for every epoch `e`, genesis offset `g` and epochs-per-day value
of at least 24 (so both bucket widths are positive), `getHourAggregateBounds`
and `getDayAggregateBounds` are pure functions returning
`(start, end)` with `start + g = max (floor((e+g)/w)*w) g` (the clamp),
`end + g = floor((e+g)/w)*w + w`, `start ≤ e < end`, and
`end - start = w` except for the first bucket clamped at genesis. -/
theorem c5_bucket_bounds_spec (epd g e : Nat) (h24 : 24 ≤ epd) :
    C5Statement epd g e := by
  have hw : 0 < getHourAggregateWidth epd :=
    Nat.one_le_div_iff (by norm_num) |>.2 h24
  have hd : 0 < GetDayAggregateWidth epd := by
    unfold GetDayAggregateWidth; omega
  exact ⟨getHourAggregateBounds_eq_core epd g e, getDayAggregateBounds_eq_core epd g e,
    bucketBoundsCore_full _ g e hw, bucketBoundsCore_full _ g e hd⟩

/-- Witness for C5 at the concrete input `epochsPerDay = 225`,
`genesisOffset = 5`, `epoch = 100`. -/
theorem c5_bucket_bounds_spec_witness : 24 ≤ 225 ∧ C5Statement 225 5 100 :=
  ⟨by decide, c5_bucket_bounds_spec 225 5 100 (by decide)⟩

/-- Counterexample to claim C8 as stated: with `epochsPerDay = 48`
(hour-bucket width 2), genesis offset 1 and `PartitionEpochWidth = 2`,
the hour bucket of epoch 4 is `[3, 5)` while its partition is `[4, 8)` —
the partition does not contain the bucket. -/
theorem c8_counterexample :
    ¬ ((GetHourPartitionRange 48 2 4).1 ≤ (getHourAggregateBounds 48 1 4).1 ∧
       (getHourAggregateBounds 48 1 4).2 ≤ (GetHourPartitionRange 48 2 4).2) := by
  decide

/-- Tiling specification of a partition-range function of width `pw`:
membership, exact width, alignment, and the equal-or-disjoint property
(consecutive partitions tile with no gaps or overlaps). -/
def PartitionSpecAt (pw e : Nat) : Prop :=
  (partitionRangeCore pw e).1 ≤ e ∧ e < (partitionRangeCore pw e).2 ∧
  (partitionRangeCore pw e).2 = (partitionRangeCore pw e).1 + pw ∧
  pw ∣ (partitionRangeCore pw e).1 ∧
  ∀ e2, partitionRangeCore pw e = partitionRangeCore pw e2 ∨
    (partitionRangeCore pw e).2 ≤ (partitionRangeCore pw e2).1 ∨
    (partitionRangeCore pw e2).2 ≤ (partitionRangeCore pw e).1

/-- Amended claim C8: the partition ranges are half-open of width
exactly `PartitionEpochWidth * w` (resp. `PartitionDayWidth * w`),
aligned to a multiple of that width, contain their epoch and tile the
timeline; the bucket of `e` is fully contained in the partition of `e`
provided the genesis offset is a multiple of the bucket width. -/
def C8Amended (epd P g e : Nat) : Prop :=
  GetHourPartitionRange epd P e = partitionRangeCore (P * getHourAggregateWidth epd) e ∧
  PartitionSpecAt (P * getHourAggregateWidth epd) e ∧
  (getHourAggregateWidth epd ∣ g →
    (GetHourPartitionRange epd P e).1 ≤ (getHourAggregateBounds epd g e).1 ∧
    (getHourAggregateBounds epd g e).2 ≤ (GetHourPartitionRange epd P e).2) ∧
  GetDayPartitionRange epd e = partitionRangeCore (PartitionDayWidth * GetDayAggregateWidth epd) e ∧
  PartitionSpecAt (PartitionDayWidth * GetDayAggregateWidth epd) e ∧
  (GetDayAggregateWidth epd ∣ g →
    (GetDayPartitionRange epd e).1 ≤ (getDayAggregateBounds epd g e).1 ∧
    (getDayAggregateBounds epd g e).2 ≤ (GetDayPartitionRange epd e).2)

/-- C8 (amended): partition width, alignment, membership and tiling hold
unconditionally; containment of the bucket additionally needs the
genesis offset to be a multiple of the bucket width. -/
theorem c8_partition_alignment (epd P g e : Nat) (h24 : 24 ≤ epd) (hP : 0 < P) :
    C8Amended epd P g e := by
  have hw : 0 < getHourAggregateWidth epd :=
    Nat.one_le_div_iff (by norm_num) |>.2 h24
  have hd : 0 < GetDayAggregateWidth epd := by
    unfold GetDayAggregateWidth; omega
  have hpwh : 0 < P * getHourAggregateWidth epd := Nat.mul_pos hP hw
  have hpwd : 0 < PartitionDayWidth * GetDayAggregateWidth epd := by
    unfold PartitionDayWidth; omega
  obtain ⟨h1, h2, h3, h4, h5⟩ := partitionRangeCore_spec (P * getHourAggregateWidth epd) e hpwh
  obtain ⟨g1, g2, g3, g4, g5⟩ :=
    partitionRangeCore_spec (PartitionDayWidth * GetDayAggregateWidth epd) e hpwd
  refine ⟨GetHourPartitionRange_eq_core epd P e, ⟨h1, h2, h3, h4, h5⟩, fun hdvd => ?_,
    GetDayPartitionRange_eq_core epd e, ⟨g1, g2, g3, g4, g5⟩, fun hdvd => ?_⟩
  · rw [GetHourPartitionRange_eq_core, getHourAggregateBounds_eq_core]
    exact bucket_subset_partition _ g _ e hw hpwh hdvd (Dvd.dvd.mul_left dvd_rfl P)
  · rw [GetDayPartitionRange_eq_core, getDayAggregateBounds_eq_core]
    exact bucket_subset_partition _ g _ e hd hpwd hdvd (Dvd.dvd.mul_left dvd_rfl PartitionDayWidth)

/-- Witness for the amended C8 at `epochsPerDay = 48`,
`PartitionEpochWidth = 2`, genesis offset 2, epoch 4. -/
theorem c8_partition_alignment_witness :
    (24 ≤ 48 ∧ 0 < 2) ∧ C8Amended 48 2 2 4 :=
  ⟨by decide, c8_partition_alignment 48 2 2 4 (by decide) (by decide)⟩

/-! ### The aggregation passes (`aggregate1h`, `utcDayAggregate`)

Both passes share the same loop shape; the source duplicates it
textually with different widths and tables.  We model the loop once
(`bucketWalk`) and instantiate it per pass.  Collaborator calls
(`edb.GetLastExportedHour`, `edb.GetDashboardEpochGapsBetween`,
`epochWriter.getRetentionEpochDuration`) live outside the source files
and enter the model as parameters.  The database writes are captured as
an event trace: which range the gap detector was queried over and which
`[boundsStart, boundsEnd)` ranges were handed to the merge primitive
(`aggregate1hSpecific` / `aggregateUtcDaySpecific`). -/

/-- The `[EpochStart, EpochEnd)` pair returned by
`edb.GetLastExportedHour` / `edb.GetLastExportedDay`. -/
structure ExportBounds where
  epochStart : Nat
  epochEnd : Nat
deriving DecidableEq, Repr

/-- Observable actions of an aggregation pass. -/
inductive AggEvent where
  | gapQuery (fromEpoch : Nat) (toEpoch : Int)
  | submit (boundsStart boundsEnd : Nat)
deriving DecidableEq, Repr

/-- Errors an aggregation pass can return. -/
inductive AggError where
  | gapError (gaps : List Nat)
deriving DecidableEq, Repr

/-- One iteration of the bucket walk (identical in `aggregate1h` and
`utcDayAggregate`): skip a bucket that is already closed, narrow the
start of the first (resume) bucket to `last.epochEnd`, narrow the end
down to `currentExportedEpoch + 1` when that falls inside the bucket;
`none` means the iteration performed no merge. -/
def bucketWalkStep (w g currentExportedEpoch : Nat) (last : ExportBounds) (epoch : Nat) :
    Option (Nat × Nat) :=
  let bounds := bucketBoundsCore w g epoch
  if last.epochEnd = bounds.2 then none
  else
    let boundsStart := if epoch = last.epochStart then last.epochEnd else bounds.1
    let boundsEnd :=
      if currentExportedEpoch + 1 ≥ boundsStart ∧ currentExportedEpoch + 1 < bounds.2 then
        currentExportedEpoch + 1
      else bounds.2
    some (boundsStart, boundsEnd)

/-- The iteration values of the Go loop
`for epoch := s; epoch <= bound; epoch += w`. -/
def walkEpochs (w s bound : Nat) : List Nat :=
  if s ≤ bound then (List.range ((bound - s) / w + 1)).map (fun i => s + i * w) else []

/-- The list of `[boundsStart, boundsEnd)` ranges submitted to the merge
primitive by one pass of the bucket walk. -/
def bucketWalk (w g currentExportedEpoch : Nat) (last : ExportBounds) : List (Nat × Nat) :=
  (walkEpochs w last.epochStart (bucketBoundsCore w g currentExportedEpoch).2).filterMap
    (bucketWalkStep w g currentExportedEpoch last)

/-- `aggregate1h(currentExportedEpoch)` from
`dashboard_data_w_2_epoch_hour.go`: far-behind skip (with the uint64
wraparound of the difference), gap check over
`[C, int64(C+1-epochWriter.getRetentionEpochDuration()))`, then the
bucket walk.  `retentionHour` is the value of
`getHourRetentionDurationEpochs()` and `retEW` the epoch writer's
retention duration; `gapsBetween` is `edb.GetDashboardEpochGapsBetween`. -/
def aggregate1h (epochsPerDay offset retentionHour retEW : Nat)
    (gapsBetween : Nat → Int → List Nat) (lastHourExported : ExportBounds)
    (currentExportedEpoch : Nat) : List AggEvent × Except AggError Unit :=
  let differenceToCurrentEpoch := sub64 (add64 currentExportedEpoch 1) lastHourExported.epochEnd
  if differenceToCurrentEpoch > retentionHour then ([], .ok ())
  else
    let gapTo := toInt64 (sub64 (add64 currentExportedEpoch 1) retEW)
    let gaps := gapsBetween currentExportedEpoch gapTo
    if gaps ≠ [] then ([.gapQuery currentExportedEpoch gapTo], .error (.gapError gaps))
    else
      (.gapQuery currentExportedEpoch gapTo ::
        (bucketWalk (getHourAggregateWidth epochsPerDay) offset currentExportedEpoch
          lastHourExported).map (fun r => .submit r.1 r.2),
       .ok ())

/-- `utcDayAggregate(currentExportedEpoch)` from
`dashboard_data_w_3_hour_day.go`: gap check over
`[C, int64(latestExportedDay.EpochEnd))`, then the bucket walk at day
width.  There is no far-behind skip in this pass. -/
def utcDayAggregate (epochsPerDay offset : Nat) (gapsBetween : Nat → Int → List Nat)
    (latestExportedDay : ExportBounds) (currentExportedEpoch : Nat) :
    List AggEvent × Except AggError Unit :=
  let gapTo := toInt64 latestExportedDay.epochEnd
  let gaps := gapsBetween currentExportedEpoch gapTo
  if gaps ≠ [] then ([.gapQuery currentExportedEpoch gapTo], .error (.gapError gaps))
  else
    (.gapQuery currentExportedEpoch gapTo ::
      (bucketWalk (GetDayAggregateWidth epochsPerDay) offset currentExportedEpoch
        latestExportedDay).map (fun r => .submit r.1 r.2),
     .ok ())

/-! ### Bucket-row semantics of the merge primitive

For the idempotent-resume claim we track, per destination bucket row,
the multiset of source epochs that have been merged into it.  A
submission `[bs, be)` merges the source epochs of that range that exist
(source data is available up to `currentExportedEpoch`) into the row
keyed by the bucket start that `aggregate1hSpecific` recomputes from
`bs`. -/

/-- Apply one submitted range to the abstract bucket table. -/
def mergeSubmission (w g currentExportedEpoch : Nat) (tbl : Nat → List Nat)
    (r : Nat × Nat) : Nat → List Nat :=
  let key := (bucketBoundsCore w g r.1).1
  let src := (List.range' r.1 (r.2 - r.1)).filter (fun x => decide (x ≤ currentExportedEpoch))
  fun k => if k = key then tbl k ++ src else tbl k

/-- Apply a whole pass (its list of submitted ranges) to the table. -/
def applyPass (w g currentExportedEpoch : Nat) (tbl : Nat → List Nat)
    (rs : List (Nat × Nat)) : Nat → List Nat :=
  rs.foldl (mergeSubmission w g currentExportedEpoch) tbl

/-! ### Steady-state (idempotent resume) lemmas for claim C1 -/

/-- Any later iteration epoch of the walk (the resume bucket's start
plus at least one full width) lands in a bucket that starts strictly
after `currentExportedEpoch`. -/
theorem bucketBoundsCore_fst_future (w g C : Nat) (hw : 0 < w) (i : Nat) (hi : 1 ≤ i) :
    C < (bucketBoundsCore w g ((bucketBoundsCore w g C).1 + i * w)).1 := by
  have hudm := Nat.div_add_mod (C + g) w
  have hum : (C + g) % w < w := Nat.mod_lt _ hw
  have hgdm := Nat.div_add_mod g w
  have hgm : g % w < w := Nat.mod_lt _ hw
  have hiw : w ≤ i * w := Nat.le_mul_of_pos_left w hi
  have hfst : (bucketBoundsCore w g C).1 =
      (if (C + g) / w * w < g then g else (C + g) / w * w) - g := bucketBoundsCore_fst w g C
  have hcm : (C + g) / w * w = w * ((C + g) / w) := Nat.mul_comm _ _
  have hgcm : g / w * w = w * (g / w) := Nat.mul_comm _ _
  rcases Nat.lt_or_ge ((C + g) / w * w) g with hcl | hcl
  · -- clamped case: the resume bucket is the genesis bucket, start 0
    rw [if_pos hcl] at hfst
    have hs0 : (bucketBoundsCore w g C).1 = 0 := by omega
    rw [hs0]
    have hq : (C + g) / w = g / w := by
      have h1 : g / w ≤ (C + g) / w := Nat.div_le_div_right (Nat.le_add_left g C)
      rcases Nat.lt_or_ge (g / w) ((C + g) / w) with h2 | h2
      · exfalso
        have h3 : g / w + 1 ≤ (C + g) / w := h2
        have h4 : (g / w + 1) * w ≤ (C + g) / w * w := Nat.mul_le_mul_right w h3
        have h5 : (g / w + 1) * w = g / w * w + w := by ring
        omega
      · omega
    have hcd : (C + g) / w * w = g / w * w := by rw [hq]
    have hdiv : (0 + i * w + g) / w = g / w + i := by
      rw [Nat.zero_add, Nat.add_comm (i * w) g, Nat.add_mul_div_right g i hw]
    have hfst2 : (bucketBoundsCore w g (0 + i * w)).1 =
        (if (0 + i * w + g) / w * w < g then g else (0 + i * w + g) / w * w) - g :=
      bucketBoundsCore_fst w g (0 + i * w)
    rw [hdiv] at hfst2
    have hmul : (g / w + i) * w = g / w * w + i * w := by ring
    rw [if_neg (by omega)] at hfst2
    omega
  · -- unclamped case
    rw [if_neg (by omega)] at hfst
    have hX : (bucketBoundsCore w g C).1 + i * w + g = ((C + g) / w + i) * w := by
      have : ((C + g) / w + i) * w = (C + g) / w * w + i * w := by ring
      omega
    have hdiv : ((bucketBoundsCore w g C).1 + i * w + g) / w = (C + g) / w + i := by
      rw [hX, Nat.mul_div_cancel _ hw]
    have hfst2 : (bucketBoundsCore w g ((bucketBoundsCore w g C).1 + i * w)).1 =
        (if ((bucketBoundsCore w g C).1 + i * w + g) / w * w < g
          then g else ((bucketBoundsCore w g C).1 + i * w + g) / w * w) - g :=
      bucketBoundsCore_fst w g _
    rw [hdiv] at hfst2
    have hmul : ((C + g) / w + i) * w = (C + g) / w * w + i * w := by ring
    rw [if_neg (by omega)] at hfst2
    omega

/-- Membership shape of the walk's iteration epochs. -/
theorem walkEpochs_mem {w s bound e : Nat} (h : e ∈ walkEpochs w s bound) :
    ∃ i, e = s + i * w := by
  unfold walkEpochs at h
  split at h
  · obtain ⟨i, _, hei⟩ := List.mem_map.1 h
    exact ⟨i, hei.symm⟩
  · exact absurd h (List.not_mem_nil e)

/-- `bucketWalkStep` with its branches spelled out. -/
theorem bucketWalkStep_eq (w g C : Nat) (last : ExportBounds) (e : Nat) :
    bucketWalkStep w g C last e =
      if last.epochEnd = (bucketBoundsCore w g e).2 then none
      else
        some (if e = last.epochStart then last.epochEnd else (bucketBoundsCore w g e).1,
          if C + 1 ≥ (if e = last.epochStart then last.epochEnd else (bucketBoundsCore w g e).1) ∧
              C + 1 < (bucketBoundsCore w g e).2 then C + 1
          else (bucketBoundsCore w g e).2) := rfl

/-- In the steady state (the last exported bucket is the bucket of the
current epoch and its end is `currentExportedEpoch + 1`), every range
the walk submits starts at or after `currentExportedEpoch + 1`: no
already-merged epoch is resubmitted. -/
theorem bucketWalk_steady_future (w g C : Nat) (hw : 0 < w) (last : ExportBounds)
    (hS : last.epochStart = (bucketBoundsCore w g C).1)
    (hE : last.epochEnd = C + 1) :
    ∀ r ∈ bucketWalk w g C last, C + 1 ≤ r.1 := by
  intro r hr
  obtain ⟨e, he, hstep⟩ := List.mem_filterMap.1 hr
  obtain ⟨i, rfl⟩ := walkEpochs_mem he
  rw [bucketWalkStep_eq] at hstep
  by_cases hskip : last.epochEnd = (bucketBoundsCore w g (last.epochStart + i * w)).2
  · rw [if_pos hskip] at hstep
    exact absurd hstep (by simp)
  · rw [if_neg hskip] at hstep
    have hpair := Option.some.inj hstep
    have hr1 : r.1 = (if last.epochStart + i * w = last.epochStart then last.epochEnd
        else (bucketBoundsCore w g (last.epochStart + i * w)).1) := by
      rw [← hpair]
    rcases Nat.eq_zero_or_pos i with rfl | hi
    · -- first iteration: the start is narrowed to last.epochEnd = C + 1
      have heq : last.epochStart + 0 * w = last.epochStart := by omega
      rw [if_pos heq] at hr1
      omega
    · -- later iterations: the whole bucket lies beyond C
      have hfut : C < (bucketBoundsCore w g (last.epochStart + i * w)).1 := by
        rw [hS]
        exact bucketBoundsCore_fst_future w g C hw i hi
      have hne : last.epochStart + i * w ≠ last.epochStart := by
        have : w ≤ i * w := Nat.le_mul_of_pos_left w hi
        omega
      rw [if_neg hne] at hr1
      omega

/-- A bucket whose end coincides with `last.epochEnd` is skipped by the
walk (the closed-bucket no-op). -/
theorem bucketWalkStep_skips_closed (w g C : Nat) (last : ExportBounds) (e : Nat)
    (h : last.epochEnd = (bucketBoundsCore w g e).2) :
    bucketWalkStep w g C last e = none := by
  unfold bucketWalkStep
  rw [if_pos h]

/-- Submitting only ranges that start beyond the available source data
leaves every bucket row unchanged. -/
theorem applyPass_of_future (w g C : Nat) (tbl : Nat → List Nat)
    (rs : List (Nat × Nat)) (h : ∀ r ∈ rs, C + 1 ≤ r.1) :
    applyPass w g C tbl rs = tbl := by
  induction rs generalizing tbl with
  | nil => rfl
  | cons r rs ih =>
    have hr : C + 1 ≤ r.1 := h r (List.mem_cons_self r rs)
    have hmerge : mergeSubmission w g C tbl r = tbl := by
      funext k
      unfold mergeSubmission
      have hsrc : (List.range' r.1 (r.2 - r.1)).filter
          (fun x => decide (x ≤ C)) = [] := by
        rw [List.filter_eq_nil_iff]
        intro a ha
        have : r.1 ≤ a := (List.mem_range'_1.1 ha).1
        simp only [decide_eq_true_eq]
        omega
      simp only [hsrc, List.append_nil]
      split <;> rfl
    show applyPass w g C (mergeSubmission w g C tbl r) rs = tbl
    rw [hmerge]
    exact ih tbl (fun x hx => h x (List.mem_cons_of_mem r hx))

/-- The wrapped difference `uint64(C+1) - uint64(C+1)` is zero. -/
theorem sub64_add64_self (C : Nat) : sub64 (add64 C 1) (C + 1) = 0 := by
  unfold sub64 add64 u64Mod
  have h1 : (C + 1) % 2 ^ 64 < 2 ^ 64 := Nat.mod_lt _ (by norm_num)
  have h2 : (C + 1) % 2 ^ 64 % 2 ^ 64 = (C + 1) % 2 ^ 64 := Nat.mod_eq_of_lt h1
  rw [h2]
  have h3 : (C + 1) % 2 ^ 64 + (2 ^ 64 - (C + 1) % 2 ^ 64) = 2 ^ 64 := by omega
  rw [h3, Nat.mod_self]

/-- Claim C1 packaged, for a state in which both granularities have
exported exactly through `currentExportedEpoch` and no new source
epochs are available: both passes succeed emitting only the gap query
and their walk submissions, every submitted range starts at or after
`lastExported.epochEnd` (no already-merged epoch is resubmitted), any
bucket whose end equals `lastExported.epochEnd` is skipped, and
replaying the submissions over the bucket tables leaves every row
unchanged. -/
def C1Statement (epd g C retentionHour retEW : Nat) (gapsBetween : Nat → Int → List Nat)
    (lastH lastD : ExportBounds) (tblH tblD : Nat → List Nat) : Prop :=
  aggregate1h epd g retentionHour retEW gapsBetween lastH C =
    (AggEvent.gapQuery C (toInt64 (sub64 (add64 C 1) retEW)) ::
      (bucketWalk (getHourAggregateWidth epd) g C lastH).map (fun r => .submit r.1 r.2),
     .ok ()) ∧
  utcDayAggregate epd g gapsBetween lastD C =
    (AggEvent.gapQuery C (toInt64 lastD.epochEnd) ::
      (bucketWalk (GetDayAggregateWidth epd) g C lastD).map (fun r => .submit r.1 r.2),
     .ok ()) ∧
  (∀ r ∈ bucketWalk (getHourAggregateWidth epd) g C lastH, lastH.epochEnd ≤ r.1) ∧
  (∀ r ∈ bucketWalk (GetDayAggregateWidth epd) g C lastD, lastD.epochEnd ≤ r.1) ∧
  (∀ e, lastH.epochEnd = (bucketBoundsCore (getHourAggregateWidth epd) g e).2 →
    bucketWalkStep (getHourAggregateWidth epd) g C lastH e = none) ∧
  (∀ e, lastD.epochEnd = (bucketBoundsCore (GetDayAggregateWidth epd) g e).2 →
    bucketWalkStep (GetDayAggregateWidth epd) g C lastD e = none) ∧
  applyPass (getHourAggregateWidth epd) g C tblH
    (bucketWalk (getHourAggregateWidth epd) g C lastH) = tblH ∧
  applyPass (GetDayAggregateWidth epd) g C tblD
    (bucketWalk (GetDayAggregateWidth epd) g C lastD) = tblD

/-- C1: idempotent resume of the bucket walk for `aggregate1h` and
`utcDayAggregate`. -/
theorem c1_idempotent_resume
    (epd g C retentionHour retEW : Nat) (gapsBetween : Nat → Int → List Nat)
    (lastH lastD : ExportBounds) (tblH tblD : Nat → List Nat)
    (h24 : 24 ≤ epd)
    (hHs : lastH.epochStart = (bucketBoundsCore (getHourAggregateWidth epd) g C).1)
    (hHe : lastH.epochEnd = C + 1)
    (hDs : lastD.epochStart = (bucketBoundsCore (GetDayAggregateWidth epd) g C).1)
    (hDe : lastD.epochEnd = C + 1)
    (hGH : gapsBetween C (toInt64 (sub64 (add64 C 1) retEW)) = [])
    (hGD : gapsBetween C (toInt64 lastD.epochEnd) = []) :
    C1Statement epd g C retentionHour retEW gapsBetween lastH lastD tblH tblD := by
  have hw : 0 < getHourAggregateWidth epd := Nat.one_le_div_iff (by norm_num) |>.2 h24
  have hd : 0 < GetDayAggregateWidth epd := by
    unfold GetDayAggregateWidth; omega
  have hfutH := bucketWalk_steady_future _ g C hw lastH hHs hHe
  have hfutD := bucketWalk_steady_future _ g C hd lastD hDs hDe
  refine ⟨?_, ?_, ?_, ?_, ?_, ?_, ?_, ?_⟩
  · unfold aggregate1h
    simp only [hHe, sub64_add64_self, hGH]
    rw [if_neg (show ¬ 0 > retentionHour from by omega)]
    simp
  · unfold utcDayAggregate
    simp only [hGD]
    simp
  · intro r hr
    rw [hHe]
    exact hfutH r hr
  · intro r hr
    rw [hDe]
    exact hfutD r hr
  · intro e he
    exact bucketWalkStep_skips_closed _ g C lastH e he
  · intro e he
    exact bucketWalkStep_skips_closed _ g C lastD e he
  · exact applyPass_of_future _ g C tblH _ hfutH
  · exact applyPass_of_future _ g C tblD _ hfutD

/-- Witness for C1 at `epochsPerDay = 48`, genesis offset 0, current
epoch 10, with both granularities exported through epoch 10. -/
theorem c1_idempotent_resume_witness :
    (24 ≤ 48 ∧
      (ExportBounds.mk 10 11).epochStart = (bucketBoundsCore (getHourAggregateWidth 48) 0 10).1 ∧
      (ExportBounds.mk 10 11).epochEnd = 10 + 1 ∧
      (ExportBounds.mk 0 11).epochStart = (bucketBoundsCore (GetDayAggregateWidth 48) 0 10).1 ∧
      (ExportBounds.mk 0 11).epochEnd = 10 + 1 ∧
      (fun (_ : Nat) (_ : Int) => ([] : List Nat)) 10 (toInt64 (sub64 (add64 10 1) 3)) = [] ∧
      (fun (_ : Nat) (_ : Int) => ([] : List Nat)) 10 (toInt64 (ExportBounds.mk 0 11).epochEnd) = []) ∧
    C1Statement 48 0 10 100 3 (fun _ _ => []) (ExportBounds.mk 10 11) (ExportBounds.mk 0 11)
      (fun _ => []) (fun _ => []) :=
  ⟨⟨by decide, by decide, by decide, by decide, by decide, rfl, rfl⟩,
    c1_idempotent_resume 48 0 10 100 3 (fun _ _ => []) (ExportBounds.mk 10 11)
      (ExportBounds.mk 0 11) (fun _ => []) (fun _ => [])
      (by decide) (by decide) (by decide) (by decide) (by decide) rfl rfl⟩

/-- When the last exported end lies strictly beyond `C + 1`, the uint64
difference `C + 1 - epochEnd` wraps to at least `2 ^ 63`. -/
theorem sub64_wrap_ge (C EE : Nat) (h1 : C + 1 < EE) (h2 : EE ≤ 2 ^ 63) :
    2 ^ 63 ≤ sub64 (add64 C 1) EE := by
  unfold sub64 add64 u64Mod
  have ha : (C + 1) % 2 ^ 64 = C + 1 := Nat.mod_eq_of_lt (by omega)
  have hb : EE % 2 ^ 64 = EE := Nat.mod_eq_of_lt (by omega)
  simp only [ha, hb]
  have hc : (C + 1 + (2 ^ 64 - EE)) % 2 ^ 64 = C + 1 + (2 ^ 64 - EE) :=
    Nat.mod_eq_of_lt (by omega)
  rw [hc]
  omega

/-- C10: whenever the uint64 difference `currentExportedEpoch + 1 -
lastHourExported.EpochEnd` exceeds the hour retention duration,
`aggregate1h` returns success with an empty event trace — no gap query,
no submission to the merge primitive (hence no partition creation and
no merge write).  In particular this always happens when the last
exported end lies beyond `currentExportedEpoch + 1` (the difference
wraps to at least `2 ^ 63`), for any retention value below `2 ^ 63`. -/
theorem c10_far_behind_skip
    (epd g retentionHour retEW C : Nat) (gapsBetween : Nat → Int → List Nat)
    (last : ExportBounds) :
    (sub64 (add64 C 1) last.epochEnd > retentionHour →
      aggregate1h epd g retentionHour retEW gapsBetween last C = ([], .ok ())) ∧
    (C + 1 < last.epochEnd → last.epochEnd ≤ 2 ^ 63 → retentionHour < 2 ^ 63 →
      aggregate1h epd g retentionHour retEW gapsBetween last C = ([], .ok ())) := by
  constructor
  · intro h
    unfold aggregate1h
    rw [if_pos h]
  · intro h1 h2 h3
    have hge := sub64_wrap_ge C last.epochEnd h1 h2
    unfold aggregate1h
    rw [if_pos (by omega)]

/-- Witness for C10 with the tail a full `2 ^ 63 - 11` epochs ahead of
the head (wraparound case). -/
theorem c10_far_behind_skip_witness :
    (5 + 1 < 2 ^ 63 ∧ 2 ^ 63 ≤ 2 ^ 63 ∧ 269 < 2 ^ 63) ∧
    aggregate1h 225 0 269 2 (fun _ _ => []) (ExportBounds.mk 0 (2 ^ 63)) 5 = ([], .ok ()) :=
  ⟨⟨by decide, by decide, by decide⟩,
    (c10_far_behind_skip 225 0 269 2 5 (fun _ _ => []) (ExportBounds.mk 0 (2 ^ 63))).2
      (by decide) (by decide) (by decide)⟩

/-- Counterexample to claim C4 as stated: with epoch writer retention 5
and `lastHourExported = [10, 11)`, `aggregate1h(10)` queries the gap
detector over `[10, int64(10 + 1 - 5)) = [10, 6)` — not over
`[10, lastExported.epoch_end) = [10, 11)` as claimed. -/
theorem c4_counterexample :
    (AggEvent.gapQuery 10 (toInt64 (ExportBounds.mk 10 11).epochEnd) ∉
      (aggregate1h 48 0 1000 5 (fun _ _ => []) (ExportBounds.mk 10 11) 10).1) ∧
    AggEvent.gapQuery 10 (toInt64 (sub64 (add64 10 1) 5)) ∈
      (aggregate1h 48 0 1000 5 (fun _ _ => []) (ExportBounds.mk 10 11) 10).1 := by
  decide

/-- Amended claim C4: when the far-behind skip does not fire,
`aggregate1h` runs the gap detector over
`[C, int64(C + 1 - epochWriterRetention))` — not over
`[C, lastExported.epoch_end)` — while `utcDayAggregate` runs it over
`[C, int64(latestExportedDay.EpochEnd))`; in both passes a non-empty
result aborts with an error naming the gaps, and the trace then holds
the gap query only: nothing is submitted to the merge primitive. -/
def C4Amended (epd g retentionHour retEW C : Nat) (gapsBetween : Nat → Int → List Nat)
    (lastH lastD : ExportBounds) : Prop :=
  (¬ sub64 (add64 C 1) lastH.epochEnd > retentionHour →
    AggEvent.gapQuery C (toInt64 (sub64 (add64 C 1) retEW)) ∈
      (aggregate1h epd g retentionHour retEW gapsBetween lastH C).1 ∧
    (gapsBetween C (toInt64 (sub64 (add64 C 1) retEW)) ≠ [] →
      aggregate1h epd g retentionHour retEW gapsBetween lastH C =
        ([AggEvent.gapQuery C (toInt64 (sub64 (add64 C 1) retEW))],
         .error (.gapError (gapsBetween C (toInt64 (sub64 (add64 C 1) retEW))))))) ∧
  (AggEvent.gapQuery C (toInt64 lastD.epochEnd) ∈
    (utcDayAggregate epd g gapsBetween lastD C).1 ∧
  (gapsBetween C (toInt64 lastD.epochEnd) ≠ [] →
    utcDayAggregate epd g gapsBetween lastD C =
      ([AggEvent.gapQuery C (toInt64 lastD.epochEnd)],
       .error (.gapError (gapsBetween C (toInt64 lastD.epochEnd))))))

/-- C4 (amended): gap refusal with the ranges the code actually uses. -/
theorem c4_gap_refusal (epd g retentionHour retEW C : Nat)
    (gapsBetween : Nat → Int → List Nat) (lastH lastD : ExportBounds) :
    C4Amended epd g retentionHour retEW C gapsBetween lastH lastD := by
  constructor
  · intro hskip
    unfold aggregate1h
    rw [if_neg hskip]
    by_cases hg : gapsBetween C (toInt64 (sub64 (add64 C 1) retEW)) = []
    · constructor
      · rw [if_neg (by simp [hg])]
        exact List.mem_cons_self _ _
      · intro hne
        exact absurd hg hne
    · constructor
      · rw [if_pos hg]
        exact List.mem_cons_self _ _
      · intro _
        rw [if_pos hg]
  · unfold utcDayAggregate
    by_cases hg : gapsBetween C (toInt64 lastD.epochEnd) = []
    · constructor
      · rw [if_neg (by simp [hg])]
        exact List.mem_cons_self _ _
      · intro hne
        exact absurd hg hne
    · constructor
      · rw [if_pos hg]
        exact List.mem_cons_self _ _
      · intro _
        rw [if_pos hg]

/-- Witness for the amended C4 at concrete arguments (non-empty gap
result, exercising the refusal path of both passes). -/
theorem c4_gap_refusal_witness :
    C4Amended 48 0 1000 5 10 (fun _ _ => [3]) (ExportBounds.mk 10 11) (ExportBounds.mk 0 11) :=
  c4_gap_refusal 48 0 1000 5 10 (fun _ _ => [3]) (ExportBounds.mk 10 11) (ExportBounds.mk 0 11)

/-! ### Partition identifiers (claims C9 and C3)

`createHourlyPartition` names its partition
`validator_dashboard_data_hourly_%d_%d` (Go `fmt.Sprintf` with two
`uint64` values, i.e. plain decimal digits).  `clearOldHourAggregations`
decodes names with `parseEpochRange` against the pattern
`validator_dashboard_data_hourly_(\d+)_(\d+)`; `parseEpochRange` itself
is defined outside the two source files, so its matcher is modelled
from the spec ("partition identifiers encoding `[from,to)` in a fixed
textual format parsed via a defined pattern"): match the literal head
of the pattern, then a maximal nonempty digit run, a literal
underscore, and a second maximal nonempty digit run. -/

/-- The decimal digit character for `d < 10`. -/
def decimalChar (d : Nat) : Char := Char.ofNat (48 + d)

/-- The value of a decimal digit character. -/
def charDigit (c : Char) : Nat := c.toNat - 48

/-- `\d` of the pattern: a decimal digit character. -/
def isDigitChar (c : Char) : Bool := 48 ≤ c.toNat && c.toNat ≤ 57

/-- Little-endian decimal digits of `n`, with explicit fuel (the fuel
`n` itself always suffices); structural, so concrete names evaluate. -/
def toDigitsRev : Nat → Nat → List Nat
  | 0, _ => []
  | _ + 1, 0 => []
  | fuel + 1, n + 1 => (n + 1) % 10 :: toDigitsRev fuel ((n + 1) / 10)

/-- Little-endian decimal digits of `n`. -/
def decimalDigitsRev (n : Nat) : List Nat := toDigitsRev n n

/-- Value of a little-endian digit list. -/
def ofDigitsRev : List Nat → Nat
  | [] => 0
  | d :: ds => d + 10 * ofDigitsRev ds

/-- Decimal rendering of a `uint64` value (Go `%d`). -/
def natToDecimalChars (n : Nat) : List Char :=
  if n = 0 then [Char.ofNat 48] else ((decimalDigitsRev n).map decimalChar).reverse

/-- The literal head of the hourly partition name and pattern. -/
def hourlyTableChars : List Char := "validator_dashboard_data_hourly_".toList

/-- The partition name `createHourlyPartition(epochStartFrom,
epochStartTo)` generates. -/
def hourlyPartitionName (epochStartFrom epochStartTo : Nat) : List Char :=
  hourlyTableChars ++ natToDecimalChars epochStartFrom ++
    [Char.ofNat 95] ++ natToDecimalChars epochStartTo

/-- Consume an exact literal; `none` when the input does not start with it. -/
def dropExact : List Char → List Char → Option (List Char)
  | [], s => some s
  | _ :: _, [] => none
  | p :: ps, c :: cs => if c = p then dropExact ps cs else none

/-- Maximal digit run at the head of the input (greedy `\d+`). -/
def spanDigits (s : List Char) : List Char × List Char :=
  match s with
  | [] => ([], [])
  | c :: cs =>
    if isDigitChar c then
      let r := spanDigits cs
      (c :: r.1, r.2)
    else ([], c :: cs)

/-- Decimal value of a digit run (most significant digit first). -/
def decodeDecimal (ds : List Char) : Nat := ofDigitsRev ((ds.map charDigit).reverse)

/-- The part of the pattern after the literal head:
`(\d+)_(\d+)` — a nonempty digit run, an underscore, a second nonempty
digit run. -/
def parseAfterLiteral (rest : List Char) : Option (Nat × Nat) :=
  let p1 := spanDigits rest
  if p1.1 = [] then none
  else
    match p1.2 with
    | [] => none
    | c :: rest2 =>
      if c = Char.ofNat 95 then
        let p2 := spanDigits rest2
        if p2.1 = [] then none
        else some (decodeDecimal p1.1, decodeDecimal p2.1)
      else none

/-- `parseAfterLiteral` with the two digit spans exposed. -/
theorem parseAfterLiteral_eq (rest : List Char) :
    parseAfterLiteral rest =
      if (spanDigits rest).1 = [] then none
      else
        match (spanDigits rest).2 with
        | [] => none
        | c :: rest2 =>
          if c = Char.ofNat 95 then
            if (spanDigits rest2).1 = [] then none
            else some (decodeDecimal (spanDigits rest).1, decodeDecimal (spanDigits rest2).1)
          else none := rfl

/-- Modelled from the spec: the collaborator `parseEpochRange` applied
to the pattern `validator_dashboard_data_hourly_(\d+)_(\d+)` (the
function lives outside the two source files; only this call pattern is
used by `clearOldHourAggregations`). -/
def parseEpochRange (s : List Char) : Option (Nat × Nat) :=
  match dropExact hourlyTableChars s with
  | none => none
  | some rest => parseAfterLiteral rest

theorem dropExact_append (p r : List Char) : dropExact p (p ++ r) = some r := by
  induction p with
  | nil => rfl
  | cons c cs ih =>
    show (if c = c then dropExact cs (cs ++ r) else none) = some r
    rw [if_pos rfl, ih]

theorem decimalChar_isDigit {d : Nat} (hd : d < 10) : isDigitChar (decimalChar d) = true := by
  interval_cases d <;> decide

theorem charDigit_decimalChar {d : Nat} (hd : d < 10) : charDigit (decimalChar d) = d := by
  interval_cases d <;> decide

theorem toDigitsRev_lt (fuel : Nat) : ∀ n, ∀ d ∈ toDigitsRev fuel n, d < 10 := by
  induction fuel with
  | zero =>
    intro n d hd
    exact absurd hd (List.not_mem_nil d)
  | succ fuel ih =>
    intro n d hd
    cases n with
    | zero => exact absurd hd (List.not_mem_nil d)
    | succ m =>
      cases hd with
      | head => exact Nat.mod_lt _ (by norm_num)
      | tail _ hmem => exact ih ((m + 1) / 10) d hmem

theorem natToDecimalChars_digits (n : Nat) :
    ∀ c ∈ natToDecimalChars n, isDigitChar c = true := by
  intro c hc
  unfold natToDecimalChars at hc
  split at hc
  · have : c = Char.ofNat 48 := by
      cases hc with
      | head => rfl
      | tail _ h => exact absurd h (List.not_mem_nil c)
    rw [this]; decide
  · rw [List.mem_reverse] at hc
    obtain ⟨d, hd, rfl⟩ := List.mem_map.1 hc
    exact decimalChar_isDigit (toDigitsRev_lt n n d hd)

theorem natToDecimalChars_ne_nil (n : Nat) : natToDecimalChars n ≠ [] := by
  unfold natToDecimalChars
  split
  · simp
  · next h =>
    simp only [ne_eq, List.reverse_eq_nil_iff, List.map_eq_nil_iff]
    cases n with
    | zero => exact absurd rfl h
    | succ m =>
      show toDigitsRev (m + 1) (m + 1) ≠ []
      simp [toDigitsRev]

theorem spanDigits_exact (ds r : List Char) (hds : ∀ c ∈ ds, isDigitChar c = true)
    (hr : ∀ c, r.head? = some c → isDigitChar c = false) :
    spanDigits (ds ++ r) = (ds, r) := by
  induction ds with
  | nil =>
    cases r with
    | nil => rfl
    | cons c cs =>
      have hc : isDigitChar c = false := hr c rfl
      show (if isDigitChar c then
          let r := spanDigits cs
          (c :: r.1, r.2)
        else ([], c :: cs)) = ([], c :: cs)
      rw [hc]
      simp
  | cons d ds ih =>
    show (if isDigitChar d then _ else _) = (d :: ds, r)
    rw [if_pos (hds d (List.mem_cons_self d ds))]
    have htail := ih (fun c hc => hds c (List.mem_cons_of_mem d hc))
    have hAppend : ds.append r = ds ++ r := rfl
    rw [hAppend, htail]

theorem ofDigitsRev_toDigitsRev (fuel : Nat) :
    ∀ n, n ≤ fuel → ofDigitsRev (toDigitsRev fuel n) = n := by
  induction fuel with
  | zero =>
    intro n hn
    interval_cases n
    rfl
  | succ fuel ih =>
    intro n hn
    cases n with
    | zero => rfl
    | succ m =>
      show (m + 1) % 10 + 10 * ofDigitsRev (toDigitsRev fuel ((m + 1) / 10)) = m + 1
      have hdiv : (m + 1) / 10 ≤ fuel := by
        have := Nat.div_lt_self (Nat.succ_pos m) (by norm_num : 1 < 10)
        omega
      rw [ih _ hdiv]
      omega

theorem decodeDecimal_natToDecimalChars (n : Nat) :
    decodeDecimal (natToDecimalChars n) = n := by
  unfold decodeDecimal natToDecimalChars
  split
  · subst n
    decide
  · rw [List.map_reverse, List.reverse_reverse, List.map_map]
    have hmap : (decimalDigitsRev n).map (charDigit ∘ decimalChar) = decimalDigitsRev n := by
      rw [List.map_congr_left (fun d hd => ?_), List.map_id]
      exact charDigit_decimalChar (toDigitsRev_lt n n d hd)
    rw [hmap]
    exact ofDigitsRev_toDigitsRev n n (Nat.le_refl n)

theorem parseEpochRange_roundtrip (epochStartFrom epochStartTo : Nat) :
    parseEpochRange (hourlyPartitionName epochStartFrom epochStartTo) =
      some (epochStartFrom, epochStartTo) := by
  unfold parseEpochRange hourlyPartitionName
  rw [List.append_assoc, List.append_assoc, dropExact_append]
  show parseAfterLiteral (natToDecimalChars epochStartFrom ++
    ([Char.ofNat 95] ++ natToDecimalChars epochStartTo)) = some (epochStartFrom, epochStartTo)
  have h1 : spanDigits (natToDecimalChars epochStartFrom ++
      ([Char.ofNat 95] ++ natToDecimalChars epochStartTo)) =
      (natToDecimalChars epochStartFrom, [Char.ofNat 95] ++ natToDecimalChars epochStartTo) :=
    spanDigits_exact _ _ (natToDecimalChars_digits epochStartFrom)
      (fun c hc => by
        have h95 : Char.ofNat 95 = c := by
          simpa using hc
        rw [← h95]; decide)
  have h2 : spanDigits (natToDecimalChars epochStartTo) =
      (natToDecimalChars epochStartTo, []) := by
    have := spanDigits_exact (natToDecimalChars epochStartTo) []
      (natToDecimalChars_digits epochStartTo) (fun c hc => by cases hc)
    rwa [List.append_nil] at this
  rw [parseAfterLiteral_eq, h1]
  rw [if_neg (by simpa using natToDecimalChars_ne_nil epochStartFrom)]
  show (if Char.ofNat 95 = Char.ofNat 95 then _ else none) = _
  rw [if_pos rfl]
  rw [show ([] : List Char).append (natToDecimalChars epochStartTo) =
    natToDecimalChars epochStartTo from rfl, h2]
  rw [if_neg (by simpa using natToDecimalChars_ne_nil epochStartTo)]
  simp [decodeDecimal_natToDecimalChars]

/-- C9: the hourly partition name round-trips through the retention
parser, for every pair of epoch bounds. -/
theorem c9_partition_name_roundtrip (epochStartFrom epochStartTo : Nat) :
    parseEpochRange (hourlyPartitionName epochStartFrom epochStartTo) =
      some (epochStartFrom, epochStartTo) :=
  parseEpochRange_roundtrip epochStartFrom epochStartTo

/-! ### Retention sweep (`clearOldHourAggregations`, claim C3) -/

/-- `clearOldHourAggregations(removeBelowEpoch)` from
`dashboard_data_w_2_epoch_hour.go`: walks the partition names, decodes
each with `parseEpochRange` (a failed parse aborts the sweep), and
drops a partition exactly when `int64(epochTo) < removeBelowEpoch`.
The result is the pair (names still present, `[from,to)` pairs
dropped). -/
def clearOldHourAggregations (removeBelowEpoch : Int) :
    List (List Char) → Except String (List (List Char) × List (Nat × Nat))
  | [] => .ok ([], [])
  | p :: rest =>
    match parseEpochRange p with
    | none => .error "failed to parse epoch range"
    | some (epochFrom, epochTo) =>
      match clearOldHourAggregations removeBelowEpoch rest with
      | .error e => .error e
      | .ok (remaining, deleted) =>
        if toInt64 epochTo < removeBelowEpoch then
          .ok (remaining, (epochFrom, epochTo) :: deleted)
        else
          .ok (p :: remaining, deleted)

/-- Counterexample to claim C3 as stated: with threshold `T = 5`, the
partition `validator_dashboard_data_hourly_0_5` — whose decoded upper
bound equals `T` — is not dropped: the code drops only partitions with
`to` strictly below the threshold, while the claim requires every
partition with `to ≤ T` to be gone. -/
theorem c3_counterexample :
    clearOldHourAggregations 5 [hourlyPartitionName 0 5] =
      .ok ([hourlyPartitionName 0 5], []) ∧
    parseEpochRange (hourlyPartitionName 0 5) = some (0, 5) ∧
    toInt64 5 ≤ 5 := by
  refine ⟨?_, parseEpochRange_roundtrip 0 5, by decide⟩
  simp only [clearOldHourAggregations, parseEpochRange_roundtrip]
  norm_num [toInt64, u64Mod]

/-- Amended claim C3: after a successful sweep with threshold `T`,
exactly the partitions with `int64(to) < T` have been dropped: every
remaining partition decodes to some `(from, to)` with `¬ int64(to) < T`,
every dropped pair satisfies `int64(to) < T`, and every input partition
is either still present or was dropped. -/
def C3Amended (T : Int) (ps : List (List Char)) : Prop :=
  ∀ rem del, clearOldHourAggregations T ps = .ok (rem, del) →
    (∀ p ∈ rem, ∃ f t, parseEpochRange p = some (f, t) ∧ ¬ toInt64 t < T) ∧
    (∀ ft ∈ del, toInt64 ft.2 < T) ∧
    (∀ p ∈ ps, p ∈ rem ∨ ∃ f t, parseEpochRange p = some (f, t) ∧ (f, t) ∈ del)

/-- C3 (amended): the retention sweep drops exactly the partitions whose
decoded upper bound is strictly below the threshold. -/
theorem c3_retention_exactness (T : Int) (ps : List (List Char)) : C3Amended T ps := by
  induction ps with
  | nil =>
    intro rem del h
    cases h
    exact ⟨fun p hp => absurd hp (List.not_mem_nil p),
      fun ft hft => absurd hft (List.not_mem_nil ft),
      fun p hp => absurd hp (List.not_mem_nil p)⟩
  | cons p rest ih =>
    intro rem del h
    unfold clearOldHourAggregations at h
    cases hparse : parseEpochRange p with
    | none =>
      rw [hparse] at h
      exact Except.noConfusion h
    | some ft =>
      obtain ⟨f, t⟩ := ft
      rw [hparse] at h
      cases hrec : clearOldHourAggregations T rest with
      | error e =>
        rw [hrec] at h
        exact Except.noConfusion h
      | ok rd =>
        obtain ⟨rem0, del0⟩ := rd
        rw [hrec] at h
        replace h : (if toInt64 t < T then
            Except.ok (ε := String) (rem0, (f, t) :: del0)
          else Except.ok (p :: rem0, del0)) = Except.ok (rem, del) := h
        obtain ⟨h1, h2, h3⟩ := ih rem0 del0 hrec
        by_cases hlt : toInt64 t < T
        · rw [if_pos hlt] at h
          have hpair := Except.ok.inj h
          rw [Prod.mk.injEq] at hpair
          obtain ⟨hrem, hdel⟩ := hpair
          subst hrem
          subst hdel
          refine ⟨h1, ?_, ?_⟩
          · intro ft hft
            cases hft with
            | head => exact hlt
            | tail _ hmem => exact h2 ft hmem
          · intro q hq
            cases hq with
            | head => exact Or.inr ⟨f, t, hparse, List.mem_cons_self _ _⟩
            | tail _ hmem =>
              rcases h3 q hmem with hin | ⟨f2, t2, hp2, hd2⟩
              · exact Or.inl hin
              · exact Or.inr ⟨f2, t2, hp2, List.mem_cons_of_mem _ hd2⟩
        · rw [if_neg hlt] at h
          have hpair := Except.ok.inj h
          rw [Prod.mk.injEq] at hpair
          obtain ⟨hrem, hdel⟩ := hpair
          subst hrem
          subst hdel
          refine ⟨?_, h2, ?_⟩
          · intro q hq
            cases hq with
            | head => exact ⟨f, t, hparse, hlt⟩
            | tail _ hmem => exact h1 q hmem
          · intro q hq
            cases hq with
            | head => exact Or.inl (List.mem_cons_self _ _)
            | tail _ hmem =>
              rcases h3 q hmem with hin | hdel
              · exact Or.inl (List.mem_cons_of_mem _ hin)
              · exact Or.inr hdel

/-- Witness for the amended C3: threshold 6 over partitions `[0,5)` and
`[5,9)` — the first is dropped, the second remains. -/
theorem c3_retention_exactness_witness :
    clearOldHourAggregations 6 [hourlyPartitionName 0 5, hourlyPartitionName 5 9] =
      .ok ([hourlyPartitionName 5 9], [(0, 5)]) ∧
    ((∀ p ∈ [hourlyPartitionName 5 9], ∃ f t, parseEpochRange p = some (f, t) ∧ ¬ toInt64 t < 6) ∧
     (∀ ft ∈ [((0 : Nat), (5 : Nat))], toInt64 ft.2 < 6) ∧
     (∀ p ∈ [hourlyPartitionName 0 5, hourlyPartitionName 5 9],
       p ∈ [hourlyPartitionName 5 9] ∨
         ∃ f t, parseEpochRange p = some (f, t) ∧ (f, t) ∈ [((0 : Nat), (5 : Nat))])) :=
  ⟨rfl, c3_retention_exactness 6 [hourlyPartitionName 0 5, hourlyPartitionName 5 9]
    [hourlyPartitionName 5 9] [(0, 5)] rfl⟩

/-! ### Transactional shape of the bucket-specific merges (claim C2)

`aggregate1hSpecific` opens a `sqlx` transaction `tx` (with a deferred
rollback) and runs `AddToRollingCustom` on `tx`; but
`createHourlyPartition` executes on `db.AlloyWriter` directly — outside
`tx` — as does the optional column-engine call.
`aggregateUtcDaySpecific` even creates its partition before opening the
transaction.  We model each call as the pair of committed effect lists
(outside the transaction / inside it) together with the result; the
failure of the merge write is injected through `mergeFails`, the
failure of the partition DDL through `createFails`. -/

/-- Database effects of a bucket-specific merge call. -/
inductive DbOp where
  | createPartition (rangeFrom rangeTo : Nat)
  | addToColumnEngine (rangeFrom rangeTo : Nat)
  | mergeWrite (startEpoch endEpochInclusive : Nat) (startBoundEpoch : Int)
deriving DecidableEq, Repr

/-- `aggregate1hSpecific(epochStart, epochEnd)` from
`dashboard_data_w_2_epoch_hour.go`.  Returns
`(committed outside tx, committed inside tx, result)`.
`debugACE` stands for the package flag `debugAddToColumnEngine`
(defined outside the two source files); a column-engine failure only
logs a warning, so it carries no failure flag. -/
def aggregate1hSpecific (epd P g : Nat) (debugACE createFails mergeFails : Bool)
    (epochStart epochEnd : Nat) : List DbOp × List DbOp × Except String Unit :=
  let pr := GetHourPartitionRange epd P epochStart
  if createFails then ([], [], .error "failed to create hourly partition")
  else
    let boundsStart := (getHourAggregateBounds epd g epochStart).1
    let outside := DbOp.createPartition pr.1 pr.2 ::
      (if epochStart = pr.1 && debugACE then [DbOp.addToColumnEngine pr.1 pr.2] else [])
    if mergeFails then (outside, [], .error "failed to insert hourly data")
    else (outside, [DbOp.mergeWrite epochStart (epochEnd - 1) (toInt64 boundsStart)], .ok ())

/-- `aggregateUtcDaySpecific(firstEpochOfDay, lastEpochOfDay)` from
`dashboard_data_w_3_hour_day.go` (partition range computed from
`lastEpochOfDay`, created before the transaction is even opened). -/
def aggregateUtcDaySpecific (epd g : Nat) (createFails mergeFails : Bool)
    (firstEpochOfDay lastEpochOfDay : Nat) : List DbOp × List DbOp × Except String Unit :=
  let pr := GetDayPartitionRange epd lastEpochOfDay
  if createFails then ([], [], .error "failed to create day partition")
  else
    let boundsStart := (getDayAggregateBounds epd g firstEpochOfDay).1
    if mergeFails then
      ([DbOp.createPartition pr.1 pr.2], [], .error "failed to insert daily aggregate")
    else
      ([DbOp.createPartition pr.1 pr.2],
       [DbOp.mergeWrite firstEpochOfDay (lastEpochOfDay - 1) (toInt64 boundsStart)], .ok ())

/-- Counterexample to claim C2 as stated: when the merge write fails,
the call returns an error and the transaction commits nothing — yet the
partition creation, having run outside the transaction, stays
committed: partition creation and merge are not in one atomic unit, and
a failed call leaves partial state behind. -/
theorem c2_counterexample :
    (aggregate1hSpecific 225 1 0 false false true 0 9).2.2 =
      .error "failed to insert hourly data" ∧
    (aggregate1hSpecific 225 1 0 false false true 0 9).2.1 = [] ∧
    (aggregate1hSpecific 225 1 0 false false true 0 9).1 = [DbOp.createPartition 0 9] ∧
    (aggregateUtcDaySpecific 48 0 false true 0 48).2.2 =
      .error "failed to insert daily aggregate" ∧
    (aggregateUtcDaySpecific 48 0 false true 0 48).2.1 = [] ∧
    (aggregateUtcDaySpecific 48 0 false true 0 48).1 = [DbOp.createPartition 0 288] := by
  refine ⟨rfl, rfl, rfl, rfl, rfl, rfl⟩

/-- Amended claim C2: only the merge write lives inside the
transaction: on success the transaction commits exactly the merge; on a
merge failure the transaction commits nothing while the partition
creation, executed outside the transaction, remains committed; a
partition-DDL failure aborts before anything is committed. -/
def C2Amended (epd P g eS eE : Nat) (debugACE : Bool) : Prop :=
  ((aggregate1hSpecific epd P g debugACE false true eS eE).2.2 =
      .error "failed to insert hourly data" ∧
    (aggregate1hSpecific epd P g debugACE false true eS eE).2.1 = [] ∧
    DbOp.createPartition (GetHourPartitionRange epd P eS).1 (GetHourPartitionRange epd P eS).2 ∈
      (aggregate1hSpecific epd P g debugACE false true eS eE).1) ∧
  ((aggregate1hSpecific epd P g debugACE false false eS eE).2.2 = .ok () ∧
    (aggregate1hSpecific epd P g debugACE false false eS eE).2.1 =
      [DbOp.mergeWrite eS (eE - 1) (toInt64 (getHourAggregateBounds epd g eS).1)] ∧
    DbOp.createPartition (GetHourPartitionRange epd P eS).1 (GetHourPartitionRange epd P eS).2 ∉
      (aggregate1hSpecific epd P g debugACE false false eS eE).2.1) ∧
  (∀ mergeFails, (aggregate1hSpecific epd P g debugACE true mergeFails eS eE).1 = [] ∧
    (aggregate1hSpecific epd P g debugACE true mergeFails eS eE).2.1 = []) ∧
  ((aggregateUtcDaySpecific epd g false true eS eE).2.2 =
      .error "failed to insert daily aggregate" ∧
    (aggregateUtcDaySpecific epd g false true eS eE).2.1 = [] ∧
    (aggregateUtcDaySpecific epd g false true eS eE).1 =
      [DbOp.createPartition (GetDayPartitionRange epd eE).1 (GetDayPartitionRange epd eE).2]) ∧
  ((aggregateUtcDaySpecific epd g false false eS eE).2.2 = .ok () ∧
    (aggregateUtcDaySpecific epd g false false eS eE).2.1 =
      [DbOp.mergeWrite eS (eE - 1) (toInt64 (getDayAggregateBounds epd g eS).1)])

/-- C2 (amended): transactionality of the merge write alone; partition
creation runs outside the transaction. -/
theorem c2_transaction_shape (epd P g eS eE : Nat) (debugACE : Bool) :
    C2Amended epd P g eS eE debugACE := by
  refine ⟨⟨rfl, rfl, ?_⟩, ⟨rfl, rfl, ?_⟩, fun mergeFails => ⟨rfl, rfl⟩, ⟨rfl, rfl, rfl⟩, ⟨rfl, rfl⟩⟩
  · exact List.mem_cons_self _ _
  · intro hmem
    rcases List.mem_singleton.1 hmem with h
    exact DbOp.noConfusion h

/-- Witness for the amended C2 at concrete arguments. -/
theorem c2_transaction_shape_witness : C2Amended 225 1 0 0 9 true :=
  c2_transaction_shape 225 1 0 0 9 true

/-! ### Row model of the aggregate tables (claims C6 and C7)

One row of `validator_dashboard_data_hourly` /
`validator_dashboard_data_daily` / `validator_dashboard_data_rolling_daily`,
with the exact column set of the SQL in the two source files.  The
additive counters are `Int`; the nullable columns are `Option`. -/

structure AggRow where
  epoch_start : Nat
  epoch_end : Option Nat
  validator_index : Nat
  attestations_source_reward : Int
  attestations_target_reward : Int
  attestations_head_reward : Int
  attestations_inactivity_reward : Int
  attestations_inclusion_reward : Int
  attestations_reward : Int
  attestations_ideal_source_reward : Int
  attestations_ideal_target_reward : Int
  attestations_ideal_head_reward : Int
  attestations_ideal_inactivity_reward : Int
  attestations_ideal_inclusion_reward : Int
  attestations_ideal_reward : Int
  blocks_scheduled : Int
  blocks_proposed : Int
  blocks_cl_reward : Int
  sync_scheduled : Int
  sync_executed : Int
  sync_rewards : Int
  slashed : Option Bool
  balance_start : Option Int
  balance_end : Option Int
  deposits_count : Int
  deposits_amount : Int
  withdrawals_count : Int
  withdrawals_amount : Int
  inclusion_delay_sum : Int
  block_chance : Int
  attestations_scheduled : Int
  attestations_executed : Int
  attestation_head_executed : Int
  attestation_source_executed : Int
  attestation_target_executed : Int
  optimal_inclusion_delay_sum : Int
  slasher_reward : Int
  slashed_by : Option Int
  slashed_violation : Option Int
  last_executed_duty_epoch : Option Int

/-- SQL `COALESCE(a, b)`. -/
def coalesce {α : Type} (a b : Option α) : Option α :=
  match a with
  | some x => some x
  | none => b

/-- The `ON CONFLICT (epoch_start, validator_index) DO UPDATE SET` row
merge of the hourly insert in `dashboard_data_w_2_epoch_hour.go`
(`validator_dashboard_data_hourly` is `cur`, `EXCLUDED` is the new
aggregate): sums are added, `slashed`, `slashed_by`,
`slashed_violation` and `last_executed_duty_epoch` are `COALESCE`d with
the existing value first, `balance_end` and `epoch_end` are
overwritten; `epoch_start`, `validator_index` and `balance_start` keep
their existing values. -/
def hourlyConflictUpdate (cur excluded : AggRow) : AggRow :=
  { cur with
    attestations_source_reward := cur.attestations_source_reward + excluded.attestations_source_reward
    attestations_target_reward := cur.attestations_target_reward + excluded.attestations_target_reward
    attestations_head_reward := cur.attestations_head_reward + excluded.attestations_head_reward
    attestations_inactivity_reward := cur.attestations_inactivity_reward + excluded.attestations_inactivity_reward
    attestations_inclusion_reward := cur.attestations_inclusion_reward + excluded.attestations_inclusion_reward
    attestations_reward := cur.attestations_reward + excluded.attestations_reward
    attestations_ideal_source_reward := cur.attestations_ideal_source_reward + excluded.attestations_ideal_source_reward
    attestations_ideal_target_reward := cur.attestations_ideal_target_reward + excluded.attestations_ideal_target_reward
    attestations_ideal_head_reward := cur.attestations_ideal_head_reward + excluded.attestations_ideal_head_reward
    attestations_ideal_inactivity_reward := cur.attestations_ideal_inactivity_reward + excluded.attestations_ideal_inactivity_reward
    attestations_ideal_inclusion_reward := cur.attestations_ideal_inclusion_reward + excluded.attestations_ideal_inclusion_reward
    attestations_ideal_reward := cur.attestations_ideal_reward + excluded.attestations_ideal_reward
    blocks_scheduled := cur.blocks_scheduled + excluded.blocks_scheduled
    blocks_proposed := cur.blocks_proposed + excluded.blocks_proposed
    blocks_cl_reward := cur.blocks_cl_reward + excluded.blocks_cl_reward
    sync_scheduled := cur.sync_scheduled + excluded.sync_scheduled
    sync_executed := cur.sync_executed + excluded.sync_executed
    sync_rewards := cur.sync_rewards + excluded.sync_rewards
    slashed := coalesce cur.slashed excluded.slashed
    balance_end := excluded.balance_end
    deposits_count := cur.deposits_count + excluded.deposits_count
    deposits_amount := cur.deposits_amount + excluded.deposits_amount
    withdrawals_count := cur.withdrawals_count + excluded.withdrawals_count
    withdrawals_amount := cur.withdrawals_amount + excluded.withdrawals_amount
    inclusion_delay_sum := cur.inclusion_delay_sum + excluded.inclusion_delay_sum
    block_chance := cur.block_chance + excluded.block_chance
    attestations_scheduled := cur.attestations_scheduled + excluded.attestations_scheduled
    attestations_executed := cur.attestations_executed + excluded.attestations_executed
    attestation_head_executed := cur.attestation_head_executed + excluded.attestation_head_executed
    attestation_source_executed := cur.attestation_source_executed + excluded.attestation_source_executed
    attestation_target_executed := cur.attestation_target_executed + excluded.attestation_target_executed
    optimal_inclusion_delay_sum := cur.optimal_inclusion_delay_sum + excluded.optimal_inclusion_delay_sum
    slasher_reward := cur.slasher_reward + excluded.slasher_reward
    slashed_by := coalesce cur.slashed_by excluded.slashed_by
    slashed_violation := coalesce cur.slashed_violation excluded.slashed_violation
    last_executed_duty_epoch := coalesce cur.last_executed_duty_epoch excluded.last_executed_duty_epoch
    epoch_end := excluded.epoch_end }

/-- The `ON CONFLICT (day, validator_index) DO UPDATE SET` row merge of
the daily insert in `dashboard_data_w_3_hour_day.go` — column for
column the same update as the hourly one. -/
def dailyConflictUpdate (cur excluded : AggRow) : AggRow :=
  hourlyConflictUpdate cur excluded

/-- A row with all counters zero and all nullable columns NULL. -/
def emptyAggRow : AggRow :=
  { epoch_start := 0, epoch_end := none, validator_index := 0
    attestations_source_reward := 0, attestations_target_reward := 0
    attestations_head_reward := 0, attestations_inactivity_reward := 0
    attestations_inclusion_reward := 0, attestations_reward := 0
    attestations_ideal_source_reward := 0, attestations_ideal_target_reward := 0
    attestations_ideal_head_reward := 0, attestations_ideal_inactivity_reward := 0
    attestations_ideal_inclusion_reward := 0, attestations_ideal_reward := 0
    blocks_scheduled := 0, blocks_proposed := 0, blocks_cl_reward := 0
    sync_scheduled := 0, sync_executed := 0, sync_rewards := 0
    slashed := none, balance_start := none, balance_end := none
    deposits_count := 0, deposits_amount := 0
    withdrawals_count := 0, withdrawals_amount := 0
    inclusion_delay_sum := 0, block_chance := 0
    attestations_scheduled := 0, attestations_executed := 0
    attestation_head_executed := 0, attestation_source_executed := 0
    attestation_target_executed := 0, optimal_inclusion_delay_sum := 0
    slasher_reward := 0, slashed_by := none, slashed_violation := none
    last_executed_duty_epoch := none }

/-- An existing destination row marked not slashed. -/
def c6ExistingRow : AggRow := { emptyAggRow with slashed := some false }

/-- A new aggregate whose range contains a slashing. -/
def c6NewRow : AggRow := { emptyAggRow with slashed := some true }

/-- Counterexample to claim C6 as stated: merging a new aggregate with
`slashed = true` into an existing row with `slashed = false` leaves the
stored value `false` — not the logical OR `true` — because the conflict
update uses `COALESCE(existing.slashed, EXCLUDED.slashed)`. -/
theorem c6_counterexample :
    c6ExistingRow.slashed = some false ∧ c6NewRow.slashed = some true ∧
    (hourlyConflictUpdate c6ExistingRow c6NewRow).slashed ≠ some (false || true) ∧
    (dailyConflictUpdate c6ExistingRow c6NewRow).slashed ≠ some (false || true) := by
  refine ⟨rfl, rfl, ?_, ?_⟩ <;> decide

/-- Amended claim C6: on a conflict the stored `slashed` is
`COALESCE(existing, new)` — an existing non-null value wins regardless
of the new one (an existing `false` stays `false` even when the new
range contains a slashing), and only a NULL existing value takes the
new one. -/
def C6Amended (cur excluded : AggRow) : Prop :=
  (hourlyConflictUpdate cur excluded).slashed = coalesce cur.slashed excluded.slashed ∧
  (dailyConflictUpdate cur excluded).slashed = coalesce cur.slashed excluded.slashed ∧
  (∀ b, cur.slashed = some b →
    (hourlyConflictUpdate cur excluded).slashed = some b ∧
    (dailyConflictUpdate cur excluded).slashed = some b) ∧
  (cur.slashed = none →
    (hourlyConflictUpdate cur excluded).slashed = excluded.slashed ∧
    (dailyConflictUpdate cur excluded).slashed = excluded.slashed)

/-- C6 (amended): `slashed` merges by first-non-null, not logical OR. -/
theorem c6_slashed_merge (cur excluded : AggRow) : C6Amended cur excluded := by
  refine ⟨rfl, rfl, fun b hb => ?_, fun hb => ?_⟩
  · constructor <;>
      · show coalesce cur.slashed excluded.slashed = some b
        rw [hb]
        rfl
  · constructor <;>
      · show coalesce cur.slashed excluded.slashed = excluded.slashed
        rw [hb]
        rfl

/-- Witness for the amended C6 at the concrete rows of the
counterexample input. -/
theorem c6_slashed_merge_witness : C6Amended c6ExistingRow c6NewRow :=
  c6_slashed_merge c6ExistingRow c6NewRow

/-! ### Rolling 24h bootstrap (claim C7)

`DayRollingAggregatorImpl.bootstrap` in `dashboard_data_w_3_hour_day.go`:
compute the window bounds with `getBootstrapBounds`, require a row with
`epoch_start = windowTailStart` in `validator_dashboard_data_hourly`
(failing the whole call otherwise), then truncate
`validator_dashboard_data_rolling_daily` and rebuild it in the same
transaction from the hourly rows with
`epoch_start ∈ [windowTailStart, windowHeadStart]` inclusive, grouped
by validator, with `balance_start` joined from the tail bucket,
`balance_end` joined from the head bucket and `epoch_end` taken from
the head bucket.  The model returns the rebuilt rolling table (the
truncation is implicit: the previous contents do not appear). -/

/-- SQL `bool_or` accumulation over nullable booleans. -/
def orOpt (a b : Option Bool) : Option Bool :=
  match a, b with
  | none, y => y
  | some x, none => some x
  | some x, some y => some (x || y)

/-- SQL `MAX` accumulation over nullable integers. -/
def maxOpt (a b : Option Int) : Option Int :=
  match a, b with
  | none, y => y
  | some x, none => some x
  | some x, some y => some (max x y)

/-- Accumulate one source row into the per-validator aggregate
(`SUM` for the counters, `bool_or` for `slashed`, `MAX` for
`slashed_by`, `slashed_violation`, `last_executed_duty_epoch`). -/
def aggAdd (acc r : AggRow) : AggRow :=
  { acc with
    attestations_source_reward := acc.attestations_source_reward + r.attestations_source_reward
    attestations_target_reward := acc.attestations_target_reward + r.attestations_target_reward
    attestations_head_reward := acc.attestations_head_reward + r.attestations_head_reward
    attestations_inactivity_reward := acc.attestations_inactivity_reward + r.attestations_inactivity_reward
    attestations_inclusion_reward := acc.attestations_inclusion_reward + r.attestations_inclusion_reward
    attestations_reward := acc.attestations_reward + r.attestations_reward
    attestations_ideal_source_reward := acc.attestations_ideal_source_reward + r.attestations_ideal_source_reward
    attestations_ideal_target_reward := acc.attestations_ideal_target_reward + r.attestations_ideal_target_reward
    attestations_ideal_head_reward := acc.attestations_ideal_head_reward + r.attestations_ideal_head_reward
    attestations_ideal_inactivity_reward := acc.attestations_ideal_inactivity_reward + r.attestations_ideal_inactivity_reward
    attestations_ideal_inclusion_reward := acc.attestations_ideal_inclusion_reward + r.attestations_ideal_inclusion_reward
    attestations_ideal_reward := acc.attestations_ideal_reward + r.attestations_ideal_reward
    blocks_scheduled := acc.blocks_scheduled + r.blocks_scheduled
    blocks_proposed := acc.blocks_proposed + r.blocks_proposed
    blocks_cl_reward := acc.blocks_cl_reward + r.blocks_cl_reward
    sync_scheduled := acc.sync_scheduled + r.sync_scheduled
    sync_executed := acc.sync_executed + r.sync_executed
    sync_rewards := acc.sync_rewards + r.sync_rewards
    slashed := orOpt acc.slashed r.slashed
    deposits_count := acc.deposits_count + r.deposits_count
    deposits_amount := acc.deposits_amount + r.deposits_amount
    withdrawals_count := acc.withdrawals_count + r.withdrawals_count
    withdrawals_amount := acc.withdrawals_amount + r.withdrawals_amount
    inclusion_delay_sum := acc.inclusion_delay_sum + r.inclusion_delay_sum
    block_chance := acc.block_chance + r.block_chance
    attestations_scheduled := acc.attestations_scheduled + r.attestations_scheduled
    attestations_executed := acc.attestations_executed + r.attestations_executed
    attestation_head_executed := acc.attestation_head_executed + r.attestation_head_executed
    attestation_source_executed := acc.attestation_source_executed + r.attestation_source_executed
    attestation_target_executed := acc.attestation_target_executed + r.attestation_target_executed
    optimal_inclusion_delay_sum := acc.optimal_inclusion_delay_sum + r.optimal_inclusion_delay_sum
    slasher_reward := acc.slasher_reward + r.slasher_reward
    slashed_by := maxOpt acc.slashed_by r.slashed_by
    slashed_violation := maxOpt acc.slashed_violation r.slashed_violation
    last_executed_duty_epoch := maxOpt acc.last_executed_duty_epoch r.last_executed_duty_epoch }

/-- `getBootstrapBounds(latestExportedHourEpoch)` from
`dashboard_data_w_3_hour_day.go`: the head is the start of the bucket
of the latest exported hour; the tail is the start of the bucket one
`EpochsPerDay` earlier (uint64 difference cast to int64 and clamped at
zero).  Returns `(windowTailStart, windowHeadStart)`. -/
def getBootstrapBounds (epd g latestExportedHourEpoch : Nat) : Nat × Nat :=
  let currentStartBounds := (getHourAggregateBounds epd g latestExportedHourEpoch).1
  let dayOldEpoch := toInt64 (sub64 currentStartBounds epd)
  let dayOldEpoch := if dayOldEpoch < 0 then 0 else dayOldEpoch
  let dayOldBoundsStart := (getHourAggregateBounds epd g dayOldEpoch.toNat).1
  (dayOldBoundsStart, currentStartBounds)

/-- The tail-existence prerequisite (`SELECT true FROM
validator_dashboard_data_hourly WHERE epoch_start = $1 LIMIT 1`). -/
def tailFound (tbl : List AggRow) (tailStart : Nat) : Bool :=
  tbl.any (fun r => decide (r.epoch_start = tailStart))

/-- The hourly rows the rebuild sums:
`WHERE epoch_start >= $1 AND epoch_start <= $2` (inclusive). -/
def rowsInWindow (tbl : List AggRow) (tailStart headStart : Nat) : List AggRow :=
  tbl.filter (fun r => decide (tailStart ≤ r.epoch_start ∧ r.epoch_start ≤ headStart))

/-- The `epoch_ends` CTE: `epoch_end` of the head bucket. -/
def windowEpochEnd (tbl : List AggRow) (headStart : Nat) : Option Nat :=
  ((tbl.filter (fun r => decide (r.epoch_start = headStart))).head?).bind (fun r => r.epoch_end)

/-- The `balance_starts` CTE joined per validator. -/
def balanceStartAt (tbl : List AggRow) (tailStart v : Nat) : Option Int :=
  ((tbl.filter (fun r => decide (r.epoch_start = tailStart ∧ r.validator_index = v))).head?).bind
    (fun r => r.balance_start)

/-- The `balance_ends` CTE joined per validator. -/
def balanceEndAt (tbl : List AggRow) (headStart v : Nat) : Option Int :=
  ((tbl.filter (fun r => decide (r.epoch_start = headStart ∧ r.validator_index = v))).head?).bind
    (fun r => r.balance_end)

/-- One rebuilt rolling row: the in-window aggregate of validator `v`
with the inserted `epoch_start = windowTailStart`, the head bucket's
`epoch_end` and the joined balances. -/
def bootstrapRow (tbl : List AggRow) (tailStart headStart v : Nat) : AggRow :=
  { ((rowsInWindow tbl tailStart headStart).filter
      (fun r => decide (r.validator_index = v))).foldl aggAdd emptyAggRow with
    validator_index := v
    epoch_start := tailStart
    epoch_end := windowEpochEnd tbl headStart
    balance_start := balanceStartAt tbl tailStart v
    balance_end := balanceEndAt tbl headStart v }

/-- `bootstrap` itself: prerequisite check, then the rebuilt rolling
table, one row per validator appearing in the window. -/
def bootstrap (epd g : Nat) (hourlyTable : List AggRow) (latestExportedHourStart : Nat) :
    Except String (List AggRow) :=
  let b := getBootstrapBounds epd g latestExportedHourStart
  if tailFound hourlyTable b.1 then
    .ok ((((rowsInWindow hourlyTable b.1 b.2).map (fun r => r.validator_index)).dedup).map
      (bootstrapRow hourlyTable b.1 b.2))
  else .error "failed to check if tail validator_dashboard_data_hourly epoch_start exists"

theorem tailFound_append_single (tbl : List AggRow) (x : AggRow) (t : Nat)
    (hx : x.epoch_start ≠ t) : tailFound (tbl ++ [x]) t = tailFound tbl t := by
  unfold tailFound
  rw [List.any_append]
  simp [hx]

theorem rowsInWindow_append_out (tbl : List AggRow) (x : AggRow) (t h : Nat)
    (hx : ¬ (t ≤ x.epoch_start ∧ x.epoch_start ≤ h)) :
    rowsInWindow (tbl ++ [x]) t h = rowsInWindow tbl t h := by
  unfold rowsInWindow
  rw [List.filter_append]
  simp [List.filter, decide_eq_false hx]

theorem windowEpochEnd_append_out (tbl : List AggRow) (x : AggRow) (h : Nat)
    (hx : x.epoch_start ≠ h) :
    windowEpochEnd (tbl ++ [x]) h = windowEpochEnd tbl h := by
  unfold windowEpochEnd
  rw [List.filter_append]
  simp [List.filter, decide_eq_false hx]

theorem balanceStartAt_append_out (tbl : List AggRow) (x : AggRow) (t v : Nat)
    (hx : x.epoch_start ≠ t) :
    balanceStartAt (tbl ++ [x]) t v = balanceStartAt tbl t v := by
  unfold balanceStartAt
  rw [List.filter_append]
  have hcond : ¬ (x.epoch_start = t ∧ x.validator_index = v) := fun hc => hx hc.1
  simp [List.filter, decide_eq_false hcond]

theorem balanceEndAt_append_out (tbl : List AggRow) (x : AggRow) (h v : Nat)
    (hx : x.epoch_start ≠ h) :
    balanceEndAt (tbl ++ [x]) h v = balanceEndAt tbl h v := by
  unfold balanceEndAt
  rw [List.filter_append]
  have hcond : ¬ (x.epoch_start = h ∧ x.validator_index = v) := fun hc => hx hc.1
  simp [List.filter, decide_eq_false hcond]

theorem bootstrapRow_append_out (tbl : List AggRow) (x : AggRow) (t h v : Nat)
    (hxt : x.epoch_start ≠ t) (hxh : x.epoch_start ≠ h)
    (hxw : ¬ (t ≤ x.epoch_start ∧ x.epoch_start ≤ h)) :
    bootstrapRow (tbl ++ [x]) t h v = bootstrapRow tbl t h v := by
  unfold bootstrapRow
  rw [rowsInWindow_append_out tbl x t h hxw, windowEpochEnd_append_out tbl x h hxh,
    balanceStartAt_append_out tbl x t v hxt, balanceEndAt_append_out tbl x h v hxh]

/-- Claim C7 packaged: the tail-bucket prerequisite (fail the whole
call when the tail is absent), and — on success — a rebuild that sums
exactly the hourly buckets with `epoch_start` in
`[windowTailStart, windowHeadStart]` inclusive, joining `balance_start`
from the tail bucket and `balance_end` (and `epoch_end`) from the head
bucket: every output row carries the tail as its `epoch_start` and the
joins at its own validator; a validator appears exactly when it has an
in-window row; and rows outside the inclusive window never influence
the result. -/
def C7Statement (epd g : Nat) (tbl : List AggRow) (ls : Nat) : Prop :=
  ((¬ ∃ r ∈ tbl, r.epoch_start = (getBootstrapBounds epd g ls).1) →
    bootstrap epd g tbl ls =
      .error "failed to check if tail validator_dashboard_data_hourly epoch_start exists") ∧
  ((∃ r ∈ tbl, r.epoch_start = (getBootstrapBounds epd g ls).1) →
    ∃ res, bootstrap epd g tbl ls = .ok res) ∧
  (∀ res, bootstrap epd g tbl ls = .ok res →
    (∀ out ∈ res, out.epoch_start = (getBootstrapBounds epd g ls).1 ∧
      out.epoch_end = windowEpochEnd tbl (getBootstrapBounds epd g ls).2 ∧
      out.balance_start = balanceStartAt tbl (getBootstrapBounds epd g ls).1 out.validator_index ∧
      out.balance_end = balanceEndAt tbl (getBootstrapBounds epd g ls).2 out.validator_index ∧
      ∃ r ∈ tbl, ((getBootstrapBounds epd g ls).1 ≤ r.epoch_start ∧
        r.epoch_start ≤ (getBootstrapBounds epd g ls).2) ∧
        r.validator_index = out.validator_index) ∧
    (∀ r ∈ tbl, (getBootstrapBounds epd g ls).1 ≤ r.epoch_start →
      r.epoch_start ≤ (getBootstrapBounds epd g ls).2 →
      ∃ out ∈ res, out.validator_index = r.validator_index)) ∧
  (∀ x : AggRow, x.epoch_start ≠ (getBootstrapBounds epd g ls).1 →
    x.epoch_start ≠ (getBootstrapBounds epd g ls).2 →
    ¬ ((getBootstrapBounds epd g ls).1 ≤ x.epoch_start ∧
      x.epoch_start ≤ (getBootstrapBounds epd g ls).2) →
    bootstrap epd g (tbl ++ [x]) ls = bootstrap epd g tbl ls)

/-- C7: rolling-window bootstrap prerequisite and rebuild range. -/
theorem c7_bootstrap_rebuild (epd g : Nat) (tbl : List AggRow) (ls : Nat) :
    C7Statement epd g tbl ls := by
  refine ⟨?_, ?_, ?_, ?_⟩
  · intro hno
    have hf : tailFound tbl (getBootstrapBounds epd g ls).1 = false := by
      unfold tailFound
      rw [List.any_eq_false]
      intro r hr
      simp only [decide_eq_true_eq]
      exact fun he => hno ⟨r, hr, he⟩
    simp only [bootstrap]
    rw [hf]
    rfl
  · intro hex
    have hf : tailFound tbl (getBootstrapBounds epd g ls).1 = true := by
      unfold tailFound
      rw [List.any_eq_true]
      obtain ⟨r, hr, he⟩ := hex
      exact ⟨r, hr, by simpa using he⟩
    simp only [bootstrap]
    rw [hf]
    exact ⟨_, rfl⟩
  · intro res hres
    simp only [bootstrap] at hres
    cases hfound : tailFound tbl (getBootstrapBounds epd g ls).1 with
    | false =>
      rw [hfound] at hres
      exact Except.noConfusion hres
    | true =>
      rw [hfound] at hres
      replace hres := Except.ok.inj hres
      subst hres
      constructor
      · intro out hout
        obtain ⟨v, hv, rfl⟩ := List.mem_map.1 hout
        refine ⟨rfl, rfl, rfl, rfl, ?_⟩
        obtain ⟨r, hrw, hvi⟩ := List.mem_map.1 (List.mem_dedup.1 hv)
        obtain ⟨hr, hcond⟩ := List.mem_filter.1 hrw
        rw [decide_eq_true_eq] at hcond
        exact ⟨r, hr, hcond, hvi⟩
      · intro r hr h1 h2
        have hrw : r ∈ rowsInWindow tbl (getBootstrapBounds epd g ls).1
            (getBootstrapBounds epd g ls).2 :=
          List.mem_filter.2 ⟨hr, by simpa using ⟨h1, h2⟩⟩
        have hv : r.validator_index ∈
            ((rowsInWindow tbl (getBootstrapBounds epd g ls).1
              (getBootstrapBounds epd g ls).2).map (fun r => r.validator_index)).dedup :=
          List.mem_dedup.2 (List.mem_map_of_mem _ hrw)
        exact ⟨_, List.mem_map_of_mem _ hv, rfl⟩
  · intro x hxt hxh hxw
    simp only [bootstrap]
    rw [tailFound_append_single tbl x _ hxt,
      rowsInWindow_append_out tbl x _ _ hxw]
    have hrow : bootstrapRow (tbl ++ [x]) (getBootstrapBounds epd g ls).1
        (getBootstrapBounds epd g ls).2 =
        bootstrapRow tbl (getBootstrapBounds epd g ls).1 (getBootstrapBounds epd g ls).2 :=
      funext (fun v => bootstrapRow_append_out tbl x _ _ v hxt hxh hxw)
    rw [hrow]

/-- A tail-bucket row for the C7 witness. -/
def bootWitnessRow : AggRow :=
  { emptyAggRow with epoch_start := 6, validator_index := 1, balance_start := some 100 }

/-- Witness for C7 at `epochsPerDay = 24`, genesis offset 0,
latest exported hour start 30 (window `[6, 30]`), over a one-row table
holding the tail bucket. -/
theorem c7_bootstrap_rebuild_witness : C7Statement 24 0 [bootWitnessRow] 30 :=
  c7_bootstrap_rebuild 24 0 [bootWitnessRow] 30

end BeaconAgg
